import Mathlib

/-!
Shallow embedding of the Tabular Transform & Query Engine of `gui_main.py`
(Sn-one/Mongo_GUI).  Documents are modelled as ordered association lists,
the working pandas `DataFrame` as a `Table` (a list of column names plus
positional rows), and each Python function of the source is translated to a
Lean definition of the same name.  Fallible pandas/pymongo calls (KeyError on
`DataFrame.drop`, `InvalidOperation` on `insert_many([])`) are modelled with
`Except`.
-/

namespace MongoGui

/-- Decimal digits of `n`, most significant first (`str(n)` for a Python int). -/
def natChars (n : Nat) : List Char :=
  if _h : n < 10 then [Nat.digitChar n]
  else natChars (n / 10) ++ [Nat.digitChar (n % 10)]
decreasing_by exact Nat.div_lt_self (by omega) (by omega)

/-- Python `str` of an `int` (sign followed by decimal digits). -/
def intChars (n : Int) : List Char :=
  if n < 0 then '-' :: natChars n.natAbs else natChars n.toNat

/-- Zero-padded decimal rendering, `w` characters wide. -/
def padNat (w : Nat) (n : Nat) : List Char :=
  List.replicate (w - (natChars n).length) '0' ++ natChars n

/-- A Python `datetime.datetime` value (timezone-naive, as produced by
BSON round-trips). -/
structure PyDateTime where
  year : Nat
  month : Nat
  day : Nat
  hour : Nat
  minute : Nat
  second : Nat
  microsecond : Nat
deriving DecidableEq

/-- Python `datetime.isoformat` with a separator: year-month-day, the
separator, then hour:minute:second, with the microsecond part only when
nonzero. -/
def PyDateTime.isoformatSep (dt : PyDateTime) (sep : Char) : String :=
  String.mk
    (padNat 4 dt.year ++ '-' :: padNat 2 dt.month ++ '-' :: padNat 2 dt.day ++
      sep :: padNat 2 dt.hour ++ ':' :: padNat 2 dt.minute ++ ':' :: padNat 2 dt.second ++
      (if dt.microsecond = 0 then [] else '.' :: padNat 6 dt.microsecond))

/-- Python `datetime.isoformat` (the default separator is `T`). -/
def PyDateTime.isoformat (dt : PyDateTime) : String :=
  dt.isoformatSep 'T'

/-- Python `str(datetime)`, which is `isoformat` with a space separator. -/
def PyDateTime.strPy (dt : PyDateTime) : String :=
  dt.isoformatSep ' '

/-- A document-field / table-cell value: scalars, timestamps, and the
composite (sequence / nested document) values of the document model.
`null` stands for both BSON null and the `NaN` a `DataFrame` uses for a
missing field. -/
inductive Value where
  | null : Value
  | bool (b : Bool) : Value
  | int (n : Int) : Value
  | str (s : String) : Value
  | timestamp (dt : PyDateTime) : Value
  | list (elems : List Value) : Value
  | dict (fields : List (String × Value)) : Value

mutual

def Value.decEq : (a b : Value) → Decidable (a = b)
  | .null, .null => isTrue rfl
  | .bool a, .bool b =>
    if h : a = b then isTrue (by rw [h]) else isFalse fun hh => h (by injection hh)
  | .int a, .int b =>
    if h : a = b then isTrue (by rw [h]) else isFalse fun hh => h (by injection hh)
  | .str a, .str b =>
    if h : a = b then isTrue (by rw [h]) else isFalse fun hh => h (by injection hh)
  | .timestamp a, .timestamp b =>
    if h : a = b then isTrue (by rw [h]) else isFalse fun hh => h (by injection hh)
  | .list a, .list b =>
    match Value.decEqList a b with
    | isTrue h => isTrue (by rw [h])
    | isFalse h => isFalse fun hh => h (by injection hh)
  | .dict a, .dict b =>
    match Value.decEqFields a b with
    | isTrue h => isTrue (by rw [h])
    | isFalse h => isFalse fun hh => h (by injection hh)
  | .null, .bool _ => isFalse fun h => Value.noConfusion h
  | .null, .int _ => isFalse fun h => Value.noConfusion h
  | .null, .str _ => isFalse fun h => Value.noConfusion h
  | .null, .timestamp _ => isFalse fun h => Value.noConfusion h
  | .null, .list _ => isFalse fun h => Value.noConfusion h
  | .null, .dict _ => isFalse fun h => Value.noConfusion h
  | .bool _, .null => isFalse fun h => Value.noConfusion h
  | .bool _, .int _ => isFalse fun h => Value.noConfusion h
  | .bool _, .str _ => isFalse fun h => Value.noConfusion h
  | .bool _, .timestamp _ => isFalse fun h => Value.noConfusion h
  | .bool _, .list _ => isFalse fun h => Value.noConfusion h
  | .bool _, .dict _ => isFalse fun h => Value.noConfusion h
  | .int _, .null => isFalse fun h => Value.noConfusion h
  | .int _, .bool _ => isFalse fun h => Value.noConfusion h
  | .int _, .str _ => isFalse fun h => Value.noConfusion h
  | .int _, .timestamp _ => isFalse fun h => Value.noConfusion h
  | .int _, .list _ => isFalse fun h => Value.noConfusion h
  | .int _, .dict _ => isFalse fun h => Value.noConfusion h
  | .str _, .null => isFalse fun h => Value.noConfusion h
  | .str _, .bool _ => isFalse fun h => Value.noConfusion h
  | .str _, .int _ => isFalse fun h => Value.noConfusion h
  | .str _, .timestamp _ => isFalse fun h => Value.noConfusion h
  | .str _, .list _ => isFalse fun h => Value.noConfusion h
  | .str _, .dict _ => isFalse fun h => Value.noConfusion h
  | .timestamp _, .null => isFalse fun h => Value.noConfusion h
  | .timestamp _, .bool _ => isFalse fun h => Value.noConfusion h
  | .timestamp _, .int _ => isFalse fun h => Value.noConfusion h
  | .timestamp _, .str _ => isFalse fun h => Value.noConfusion h
  | .timestamp _, .list _ => isFalse fun h => Value.noConfusion h
  | .timestamp _, .dict _ => isFalse fun h => Value.noConfusion h
  | .list _, .null => isFalse fun h => Value.noConfusion h
  | .list _, .bool _ => isFalse fun h => Value.noConfusion h
  | .list _, .int _ => isFalse fun h => Value.noConfusion h
  | .list _, .str _ => isFalse fun h => Value.noConfusion h
  | .list _, .timestamp _ => isFalse fun h => Value.noConfusion h
  | .list _, .dict _ => isFalse fun h => Value.noConfusion h
  | .dict _, .null => isFalse fun h => Value.noConfusion h
  | .dict _, .bool _ => isFalse fun h => Value.noConfusion h
  | .dict _, .int _ => isFalse fun h => Value.noConfusion h
  | .dict _, .str _ => isFalse fun h => Value.noConfusion h
  | .dict _, .timestamp _ => isFalse fun h => Value.noConfusion h
  | .dict _, .list _ => isFalse fun h => Value.noConfusion h

def Value.decEqList : (a b : List Value) → Decidable (a = b)
  | [], [] => isTrue rfl
  | [], _ :: _ => isFalse fun h => List.noConfusion h
  | _ :: _, [] => isFalse fun h => List.noConfusion h
  | a :: as, b :: bs =>
    match Value.decEq a b with
    | isFalse h1 => isFalse fun h => h1 (by injection h)
    | isTrue h1 =>
      match Value.decEqList as bs with
      | isTrue h2 => isTrue (by rw [h1, h2])
      | isFalse h2 => isFalse fun h => h2 (by injection h)

def Value.decEqFields : (a b : List (String × Value)) → Decidable (a = b)
  | [], [] => isTrue rfl
  | [], _ :: _ => isFalse fun h => List.noConfusion h
  | _ :: _, [] => isFalse fun h => List.noConfusion h
  | (k1, v1) :: as, (k2, v2) :: bs =>
    if hk : k1 = k2 then
      match Value.decEq v1 v2 with
      | isFalse h1 => isFalse fun h => by
          injection h with h1' _
          exact h1 (congrArg Prod.snd h1')
      | isTrue h1 =>
        match Value.decEqFields as bs with
        | isTrue h2 => isTrue (by rw [hk, h1, h2])
        | isFalse h2 => isFalse fun h => h2 (by injection h)
    else
      isFalse fun h => by
        injection h with h1' _
        exact hk (congrArg Prod.fst h1')

end

instance : DecidableEq Value := Value.decEq

/-- A document: an ordered mapping field name → value (a Python dict). -/
abbrev Doc := List (String × Value)

/-- The working `DataFrame`: an ordered column list and positional rows.
Columns are positional so that duplicate column names (which pandas
permits, e.g. after a colliding `rename`) are representable. -/
structure Table where
  cols : List String
  rows : List (List Value)
deriving DecidableEq

/-- Well-formed table: every row has one cell per column. -/
def Table.WF (t : Table) : Prop :=
  ∀ row ∈ t.rows, row.length = t.cols.length

instance : DecidablePred Table.WF := fun t =>
  inferInstanceAs (Decidable (∀ row ∈ t.rows, row.length = t.cols.length))

/-- The cell of `row` under the first column named `name` (`row[name]`
for a row of a frame with columns `cols`). -/
def cellAt : List String → String → List Value → Option Value
  | [], _, _ => none
  | _ :: _, _, [] => none
  | c :: cs, name, v :: vs => if c = name then some v else cellAt cs name vs

/-- The series `data[name]` of a table (per-row cell of column `name`). -/
def Table.column (t : Table) (name : String) : List Value :=
  t.rows.map fun row => (cellAt t.cols name row).getD .null

/-- Apostrophe character (used by Python `repr` of strings). -/
def squote : String := String.singleton (Char.ofNat 39)

mutual

/-- Python `str(value)` as applied by `Series.astype(str)` in
`merge_columns`: scalars print natively, containers print via `repr` of
their elements. -/
def Value.strPy : Value → String
  | .null => "None"
  | .bool b => if b then "True" else "False"
  | .int n => String.mk (intChars n)
  | .str s => s
  | .timestamp dt => dt.strPy
  | .list l => "[" ++ String.intercalate ", " (Value.listRepr l) ++ "]"
  | .dict f => "\x7b" ++ String.intercalate ", " (Value.fieldsRepr f) ++ "\x7d"

/-- Python `repr(value)` for elements nested inside a container
(strings quoted; without the escaping `repr` applies to exotic characters,
which no claim depends on). -/
def Value.reprPy : Value → String
  | .str s => squote ++ s ++ squote
  | .timestamp dt =>
      "datetime.datetime(" ++
        String.intercalate ", "
          ([String.mk (natChars dt.year), String.mk (natChars dt.month),
            String.mk (natChars dt.day), String.mk (natChars dt.hour),
            String.mk (natChars dt.minute)] ++
           (if dt.second = 0 ∧ dt.microsecond = 0 then []
            else [String.mk (natChars dt.second)]) ++
           (if dt.microsecond = 0 then [] else [String.mk (natChars dt.microsecond)])) ++
        ")"
  | .null => "None"
  | .bool b => if b then "True" else "False"
  | .int n => String.mk (intChars n)
  | .list l => "[" ++ String.intercalate ", " (Value.listRepr l) ++ "]"
  | .dict f => "\x7b" ++ String.intercalate ", " (Value.fieldsRepr f) ++ "\x7d"

def Value.listRepr : List Value → List String
  | [] => []
  | v :: vs => v.reprPy :: Value.listRepr vs

def Value.fieldsRepr : List (String × Value) → List String
  | [] => []
  | (k, v) :: fs => (squote ++ k ++ squote ++ ": " ++ v.reprPy) :: Value.fieldsRepr fs

end

/-! ## Pandas primitives used by the source -/

/-- A pandas error surfaced to the Streamlit script (uncaught, so the
script run aborts and the session table keeps its previous state). -/
inductive PandasError where
  | keyError (names : List String) : PandasError
deriving DecidableEq

/-- Column assignment `data[name] = series`: overwrite the cells of an existing column
named `name` in place, else append a new column on the right.  The new
cell of a row is `f row` (computed from the row before assignment). -/
def setColumnWith (data : Table) (name : String) (f : List Value → Value) : Table :=
  if data.cols.contains name then
    ⟨data.cols,
     data.rows.map fun row =>
       (data.cols.zip row).map fun p => if p.1 = name then f row else p.2⟩
  else
    ⟨data.cols ++ [name], data.rows.map fun row => row ++ [f row]⟩

/-- The total core of `DataFrame.drop(columns=names)`: remove every column
whose name is listed, from the schema and from every row. -/
def dropAll (data : Table) (names : List String) : Table :=
  ⟨data.cols.filter (fun c => !names.contains c),
   data.rows.map fun row =>
     ((data.cols.zip row).filter (fun p => !names.contains p.1)).map Prod.snd⟩

/-- Pandas `DataFrame.drop(columns=names)` with the default `errors=raise`:
a `KeyError` listing the missing names when any name is absent (and then
nothing is removed), else the dropped table. -/
def dropColumns (data : Table) (names : List String) : Except PandasError Table :=
  match names.filter (fun n => !data.cols.contains n) with
  | [] => .ok (dropAll data names)
  | missing => .error (.keyError missing)

/-! ## Column transform operations (`gui_main.py` functions) -/

/-- The `add_column` function: `data[column_name] = default_value`. -/
def add_column (data : Table) (column_name : String) (default_value : Value) : Table :=
  setColumnWith data column_name fun _ => default_value

/-- The merged cell of a row:
`data[col1].astype(str) + data[col2].astype(str)` at that row. -/
def mergedCell (data : Table) (col1 col2 : String) (row : List Value) : Value :=
  .str (((cellAt data.cols col1 row).getD .null).strPy ++
        ((cellAt data.cols col2 row).getD .null).strPy)

/-- The `merge_columns` function: `data[new_col_name] = data[col1].astype(str) +
data[col2].astype(str)`, then `data.drop(columns=[col1, col2])` when
`drop_originals`.  Accessing a missing `col1`/`col2` raises `KeyError`
before any assignment happens. -/
def merge_columns (data : Table) (col1 col2 new_col_name : String)
    (drop_originals : Bool) : Except PandasError Table :=
  if ¬ data.cols.contains col1 then .error (.keyError [col1])
  else if ¬ data.cols.contains col2 then .error (.keyError [col2])
  else
    let assigned := setColumnWith data new_col_name (mergedCell data col1 col2)
    if drop_originals then dropColumns assigned [col1, col2] else .ok assigned

/-- The `remove_columns` function: `data.drop(columns=columns)`. -/
def remove_columns (data : Table) (columns : List String) : Except PandasError Table :=
  dropColumns data columns

/-- The `conditional_update` function: `data.loc[data[column] == condition, column] =
new_value`.  Reading `data[column]` raises `KeyError` when the column is
missing, before any cell is written. -/
def conditional_update (data : Table) (column : String) (condition new_value : Value) :
    Except PandasError Table :=
  if ¬ data.cols.contains column then .error (.keyError [column])
  else
    .ok ⟨data.cols,
         data.rows.map fun row =>
           (data.cols.zip row).map fun p =>
             if p.1 = column ∧ p.2 = condition then new_value else p.2⟩

/-- The `rename_column` function: a `data.rename` mapping old to new — a pure relabelling
of every column named `old`; an existing column named `new` is NOT removed,
and a missing `old` is a silent no-op. -/
def rename_column (data : Table) (old_column_name new_column_name : String) : Table :=
  ⟨data.cols.map (fun c => if c = old_column_name then new_column_name else c),
   data.rows⟩

/-! ## Projection between documents and the table (`load_data` / `save_data`) -/

/-- Union of the field names of all documents in first-seen order — the
column order `pd.DataFrame(list_of_dicts)` produces. -/
def unionKeys (docs : List Doc) : List String :=
  docs.foldl (fun acc d => acc ++ (d.map Prod.fst).filter (fun k => !acc.contains k)) []

/-- Pandas `pd.DataFrame(docs)`: one column per field name in first-seen order,
missing fields filled with `NaN` (modelled `null`). -/
def dataFrameOfDocs (docs : List Doc) : Table :=
  ⟨unionKeys docs,
   docs.map fun d => (unionKeys docs).map fun c => (d.lookup c).getD .null⟩

/-- The `load_data` function: build the frame from the documents of the collection, then
drop the `_id` column when one is present. -/
def load_data (docs : List Doc) : Table :=
  let data := dataFrameOfDocs docs
  if data.cols.contains "_id" then dropAll data ["_id"] else data

/-- The records mode of `data.to_dict`: one dict per row, keyed by the column names. -/
def to_records (data : Table) : List Doc :=
  data.rows.map fun row => data.cols.zip row

/-- pymongo `Collection.insert_many(docs)`: appends the documents, but
raises `InvalidOperation("documents must be a non-empty list")` on an
empty document list. -/
def insert_many (coll : List Doc) (docs : List Doc) : Except String (List Doc) :=
  if docs.isEmpty then .error "documents must be a non-empty list"
  else .ok (coll ++ docs)

/-- The pymongo `Collection.delete_many` call with the empty filter: removes every document. -/
def delete_many_all (coll : List Doc) : List Doc :=
  let _ := coll
  []

/-- The `save_data` function: `collection.delete_many` of the empty filter (unconditionally empties the
collection) followed by `collection.insert_many` of the row dicts.
Returns the collection contents after the call together with the error, if
any, that the insert raised — the delete is never rolled back. -/
def save_data (coll : List Doc) (data : Table) : List Doc × Option String :=
  let cleared := delete_many_all coll
  match insert_many cleared (to_records data) with
  | .ok c => (c, none)
  | .error e => (cleared, some e)

/-! ## JSON serialization (`serialize_complex_data` / `serialize_dataframe`)

`json.dumps(value, default=str)` is embedded in two steps: `jsonOfValue`
maps a `Value` to a JSON syntax tree (the `default=str` hook turns nested
timestamps into their `str()` text), and `dumpJ` renders that tree with
the default `json.dumps` formatting (`", "` / `": "` separators,
`ensure_ascii` escaping). -/

/-- A JSON value. -/
inductive J where
  | null : J
  | bool (b : Bool) : J
  | num (n : Int) : J
  | str (s : String) : J
  | arr (elems : List J) : J
  | obj (members : List (String × J)) : J

mutual

def J.decEq : (a b : J) → Decidable (a = b)
  | .null, .null => isTrue rfl
  | .bool a, .bool b =>
    if h : a = b then isTrue (by rw [h]) else isFalse fun hh => h (by injection hh)
  | .num a, .num b =>
    if h : a = b then isTrue (by rw [h]) else isFalse fun hh => h (by injection hh)
  | .str a, .str b =>
    if h : a = b then isTrue (by rw [h]) else isFalse fun hh => h (by injection hh)
  | .arr a, .arr b =>
    match J.decEqList a b with
    | isTrue h => isTrue (by rw [h])
    | isFalse h => isFalse fun hh => h (by injection hh)
  | .obj a, .obj b =>
    match J.decEqMembers a b with
    | isTrue h => isTrue (by rw [h])
    | isFalse h => isFalse fun hh => h (by injection hh)
  | .null, .bool _ => isFalse fun h => J.noConfusion h
  | .null, .num _ => isFalse fun h => J.noConfusion h
  | .null, .str _ => isFalse fun h => J.noConfusion h
  | .null, .arr _ => isFalse fun h => J.noConfusion h
  | .null, .obj _ => isFalse fun h => J.noConfusion h
  | .bool _, .null => isFalse fun h => J.noConfusion h
  | .bool _, .num _ => isFalse fun h => J.noConfusion h
  | .bool _, .str _ => isFalse fun h => J.noConfusion h
  | .bool _, .arr _ => isFalse fun h => J.noConfusion h
  | .bool _, .obj _ => isFalse fun h => J.noConfusion h
  | .num _, .null => isFalse fun h => J.noConfusion h
  | .num _, .bool _ => isFalse fun h => J.noConfusion h
  | .num _, .str _ => isFalse fun h => J.noConfusion h
  | .num _, .arr _ => isFalse fun h => J.noConfusion h
  | .num _, .obj _ => isFalse fun h => J.noConfusion h
  | .str _, .null => isFalse fun h => J.noConfusion h
  | .str _, .bool _ => isFalse fun h => J.noConfusion h
  | .str _, .num _ => isFalse fun h => J.noConfusion h
  | .str _, .arr _ => isFalse fun h => J.noConfusion h
  | .str _, .obj _ => isFalse fun h => J.noConfusion h
  | .arr _, .null => isFalse fun h => J.noConfusion h
  | .arr _, .bool _ => isFalse fun h => J.noConfusion h
  | .arr _, .num _ => isFalse fun h => J.noConfusion h
  | .arr _, .str _ => isFalse fun h => J.noConfusion h
  | .arr _, .obj _ => isFalse fun h => J.noConfusion h
  | .obj _, .null => isFalse fun h => J.noConfusion h
  | .obj _, .bool _ => isFalse fun h => J.noConfusion h
  | .obj _, .num _ => isFalse fun h => J.noConfusion h
  | .obj _, .str _ => isFalse fun h => J.noConfusion h
  | .obj _, .arr _ => isFalse fun h => J.noConfusion h

def J.decEqList : (a b : List J) → Decidable (a = b)
  | [], [] => isTrue rfl
  | [], _ :: _ => isFalse fun h => List.noConfusion h
  | _ :: _, [] => isFalse fun h => List.noConfusion h
  | a :: as, b :: bs =>
    match J.decEq a b with
    | isFalse h1 => isFalse fun h => h1 (by injection h)
    | isTrue h1 =>
      match J.decEqList as bs with
      | isTrue h2 => isTrue (by rw [h1, h2])
      | isFalse h2 => isFalse fun h => h2 (by injection h)

def J.decEqMembers : (a b : List (String × J)) → Decidable (a = b)
  | [], [] => isTrue rfl
  | [], _ :: _ => isFalse fun h => List.noConfusion h
  | _ :: _, [] => isFalse fun h => List.noConfusion h
  | (k1, v1) :: as, (k2, v2) :: bs =>
    if hk : k1 = k2 then
      match J.decEq v1 v2 with
      | isFalse h1 => isFalse fun h => by
          injection h with h1' _
          exact h1 (congrArg Prod.snd h1')
      | isTrue h1 =>
        match J.decEqMembers as bs with
        | isTrue h2 => isTrue (by rw [hk, h1, h2])
        | isFalse h2 => isFalse fun h => h2 (by injection h)
    else
      isFalse fun h => by
        injection h with h1' _
        exact hk (congrArg Prod.fst h1')

end

instance : DecidableEq J := J.decEq

mutual

/-- The JSON tree `json.dumps(value, default=str)` serializes: scalars map
to JSON literals and the `default=str` hook stringifies nested timestamps. -/
def jsonOfValue : Value → J
  | .null => .null
  | .bool b => .bool b
  | .int n => .num n
  | .str s => .str s
  | .timestamp dt => .str dt.strPy
  | .list l => .arr (jsonOfList l)
  | .dict f => .obj (jsonOfFields f)

def jsonOfList : List Value → List J
  | [] => []
  | v :: vs => jsonOfValue v :: jsonOfList vs

def jsonOfFields : List (String × Value) → List (String × J)
  | [] => []
  | (k, v) :: fs => (k, jsonOfValue v) :: jsonOfFields fs

end

/-- Four lowercase hex digits of `n` (the payload of a `\u` escape). -/
def hex4 (n : Nat) : List Char :=
  [Nat.digitChar (n / 4096 % 16), Nat.digitChar (n / 256 % 16),
   Nat.digitChar (n / 16 % 16), Nat.digitChar (n % 16)]

/-- Python `json.dumps` (`ensure_ascii=True`) escaping of one character:
`"` and `\` and the short control escapes, `\uXXXX` for other control or
non-ASCII characters (a surrogate pair above U+FFFF), the character itself
otherwise. -/
def escChar (c : Char) : List Char :=
  if c = '"' then ['\\', '"']
  else if c = '\\' then ['\\', '\\']
  else if c = '\n' then ['\\', 'n']
  else if c = '\t' then ['\\', 't']
  else if c = '\r' then ['\\', 'r']
  else if c.toNat = 8 then ['\\', 'b']
  else if c.toNat = 12 then ['\\', 'f']
  else if c.toNat < 32 ∨ c.toNat ≥ 127 then
    if c.toNat < 65536 then '\\' :: 'u' :: hex4 c.toNat
    else
      ('\\' :: 'u' :: hex4 (55296 + (c.toNat - 65536) / 1024)) ++
      ('\\' :: 'u' :: hex4 (56320 + (c.toNat - 65536) % 1024))
  else [c]

/-- Escaping of a whole string body. -/
def escChars : List Char → List Char
  | [] => []
  | c :: cs => escChar c ++ escChars cs

mutual

/-- Python `json.dumps` rendering of a JSON tree with the default separators
(`", "` between items, `": "` after a key). -/
def dumpJ : J → List Char
  | .null => 'n' :: ['u', 'l', 'l']
  | .bool true => 't' :: ['r', 'u', 'e']
  | .bool false => 'f' :: ['a', 'l', 's', 'e']
  | .num n => intChars n
  | .str s => '"' :: escChars s.data ++ ['"']
  | .arr [] => ['[', ']']
  | .arr (x :: xs) => '[' :: (dumpJ x ++ dumpMoreElems xs) ++ [']']
  | .obj [] => ['\x7b', '\x7d']
  | .obj (m :: ms) => '\x7b' :: (dumpMember m ++ dumpMoreMembers ms) ++ ['\x7d']

def dumpMember : String × J → List Char
  | (k, v) => '"' :: escChars k.data ++ ['"', ':', ' '] ++ dumpJ v

def dumpMoreElems : List J → List Char
  | [] => []
  | x :: xs => ',' :: ' ' :: (dumpJ x ++ dumpMoreElems xs)

def dumpMoreMembers : List (String × J) → List Char
  | [] => []
  | m :: ms => ',' :: ' ' :: (dumpMember m ++ dumpMoreMembers ms)

end

/-- Python `json.dumps(value, default=str)`. -/
def json_dumps (value : Value) : String :=
  String.mk (dumpJ (jsonOfValue value))

/-- The `serialize_complex_data` function: JSON-encode lists and dicts, ISO-format
timestamps, pass every other value through unchanged. -/
def serialize_complex_data : Value → Value
  | .list l => .str (json_dumps (.list l))
  | .dict f => .str (json_dumps (.dict f))
  | .timestamp dt => .str dt.isoformat
  | v => v

/-- The `serialize_dataframe` function: `data.applymap(serialize_complex_data)` — the
serializer applied to every cell independently. -/
def serialize_dataframe (data : Table) : Table :=
  ⟨data.cols, data.rows.map (List.map serialize_complex_data)⟩

/-- The `execute_sql_query` function, parametric in the embedded engine `sqldf`
(pandasql): serialize the frame, then hand it to the engine under the
relation name `data`. -/
def execute_sql_query (sqldf : Table → String → Except String Table)
    (data : Table) (query : String) : Except String Table :=
  sqldf (serialize_dataframe data) query

/-! ## The Streamlit layer of `main()`: per-button handlers

Each sidebar handler validates its text inputs (an empty Streamlit text
input is falsy), calls the transform, and assigns
`st.session_state.data` only on success; a `st.error` report or an
uncaught pandas exception leaves the session table untouched. -/

/-- An error surfaced by a button handler instead of a new table. -/
inductive UiError where
  | emptyInput (msg : String) : UiError
  | invalidOperation (e : PandasError) : UiError
deriving DecidableEq

/-- The "Add Column" button: rejects an empty name, otherwise `add_column`. -/
def addColumnUi (data : Table) (new_col : String) (default_val : String) :
    Except UiError Table :=
  if new_col = "" then .error (.emptyInput "Column name cannot be empty")
  else .ok (add_column data new_col (.str default_val))

/-- The "Merge Columns" button: rejects empty inputs, otherwise
`merge_columns`. -/
def mergeColumnsUi (data : Table) (col1 col2 merged_col_name : String)
    (drop_originals : Bool) : Except UiError Table :=
  if col1 = "" ∨ col2 = "" ∨ merged_col_name = "" then
    .error (.emptyInput "Please provide all details for merging columns")
  else (merge_columns data col1 col2 merged_col_name drop_originals).mapError .invalidOperation

/-- The "Remove Columns" button: rejects an empty selection, otherwise
`remove_columns`. -/
def removeColumnsUi (data : Table) (cols_to_remove : List String) :
    Except UiError Table :=
  if cols_to_remove.isEmpty then .error (.emptyInput "Please select columns to remove")
  else (remove_columns data cols_to_remove).mapError .invalidOperation

/-- The "Rename Column" button: rejects empty names, otherwise
`rename_column`. -/
def renameColumnUi (data : Table) (old_col_name new_col_name : String) :
    Except UiError Table :=
  if old_col_name = "" ∨ new_col_name = "" then
    .error (.emptyInput "Please provide both the old and new column names")
  else .ok (rename_column data old_col_name new_col_name)

/-- The "Update Column" button: rejects empty inputs, otherwise
`conditional_update` with the two text inputs as string values. -/
def conditionalUpdateUi (data : Table) (col_to_update : String)
    (condition_val new_val : String) : Except UiError Table :=
  if col_to_update = "" ∨ condition_val = "" ∨ new_val = "" then
    .error (.emptyInput "Please provide all details for the update")
  else (conditional_update data col_to_update (.str condition_val) (.str new_val)).mapError
        .invalidOperation

/-- Session state `st.session_state.data` after a handler ran: the new table on success,
the previous table on any error (the assignment only happens on success). -/
def applyUi (data : Table) (r : Except UiError Table) : Table :=
  match r with
  | .ok t => t
  | .error _ => data

/-- The "Execute SQL" button: rejects an empty query; on an engine error
the exception is caught, reported with the engine message, and the
session table keeps its value.  Returns the new session table and the
reported error, if any. -/
def executeSqlUi (sqldf : Table → String → Except String Table)
    (data : Table) (query : String) : Table × Option String :=
  if query = "" then (data, some "Please enter a SQL query")
  else
    match execute_sql_query sqldf data query with
    | .ok query_result => (query_result, none)
    | .error e => (data, some ("Error executing SQL query: " ++ e))

/-! ## A JSON decoder

A recursive-descent decoder for the exact textual form `dumpJ` emits (a
sub-language of JSON: canonical `", "`/`": "` spacing, integer numerals).
Decoding with it certifies that serialized cells are syntactically valid
JSON and recover the serialized structure. -/

/-- Decimal digit test. -/
def isDigitCh (c : Char) : Bool :=
  '0' ≤ c ∧ c ≤ '9'

/-- Value of one hex digit. -/
def hexVal (c : Char) : Option Nat :=
  if '0' ≤ c ∧ c ≤ '9' then some (c.toNat - 48)
  else if 'a' ≤ c ∧ c ≤ 'f' then some (c.toNat - 87)
  else if 'A' ≤ c ∧ c ≤ 'F' then some (c.toNat - 55)
  else none

/-- Four hex digits. -/
def parseHex4 : List Char → Option (Nat × List Char)
  | a :: b :: c :: d :: rest =>
    match hexVal a, hexVal b, hexVal c, hexVal d with
    | some x, some y, some z, some w => some (((x * 16 + y) * 16 + z) * 16 + w, rest)
    | _, _, _, _ => none
  | _ => none

/-- Continuation of a `\u` escape once its four hex digits decoded to `n`:
a high surrogate must be followed by a `\u` low surrogate (as `json.loads`
recombines pairs), a lone surrogate is rejected, anything else is the code
point itself. -/
def unescapeU2 (n : Nat) (r1 : List Char) : Option (Char × List Char) :=
  if 55296 ≤ n ∧ n < 56320 then
    match r1 with
    | c1 :: c2 :: r2 =>
      if c1 = '\\' ∧ c2 = 'u' then
        match parseHex4 r2 with
        | some (m, r3) =>
          if 56320 ≤ m ∧ m < 57344 then
            some (Char.ofNat (65536 + (n - 55296) * 1024 + (m - 56320)), r3)
          else none
        | none => none
      else none
    | _ => none
  else if 56320 ≤ n ∧ n < 57344 then none
  else some (Char.ofNat n, r1)

/-- Decode the payload of a `\u` escape. -/
def unescapeU (r : List Char) : Option (Char × List Char) :=
  match parseHex4 r with
  | none => none
  | some (n, r1) => unescapeU2 n r1

/-- Decode the escape sequence after a backslash. -/
def unescapeSeq : List Char → Option (Char × List Char)
  | '"' :: r => some ('"', r)
  | '\\' :: r => some ('\\', r)
  | '/' :: r => some ('/', r)
  | 'b' :: r => some (Char.ofNat 8, r)
  | 'f' :: r => some (Char.ofNat 12, r)
  | 'n' :: r => some ('\n', r)
  | 'r' :: r => some ('\r', r)
  | 't' :: r => some ('\t', r)
  | 'u' :: r => unescapeU r
  | _ => none

/-- Decode a string body up to the closing quote. -/
def parseStrChars : Nat → List Char → Option (List Char × List Char)
  | 0, _ => none
  | _ + 1, [] => none
  | f + 1, c :: cs =>
    if c = '"' then some ([], cs)
    else if c = '\\' then
      match unescapeSeq cs with
      | some (d, cs1) => (parseStrChars f cs1).map fun p => (d :: p.1, p.2)
      | none => none
    else if c.toNat < 32 then none
    else (parseStrChars f cs).map fun p => (c :: p.1, p.2)

/-- Consume a maximal run of decimal digits into an accumulator. -/
def readDigits : Nat → List Char → Nat × List Char
  | acc, [] => (acc, [])
  | acc, c :: cs =>
    if isDigitCh c then readDigits (acc * 10 + (c.toNat - 48)) cs else (acc, c :: cs)

/-- Decode an (optionally negated) integer numeral. -/
def parseNum : List Char → Option (Int × List Char)
  | [] => none
  | c :: cs =>
    if c = '-' then
      match cs with
      | c1 :: _ =>
        if isDigitCh c1 then
          match readDigits 0 cs with
          | (n, rest) => some (-(n : Int), rest)
        else none
      | [] => none
    else if isDigitCh c then
      match readDigits 0 (c :: cs) with
      | (n, rest) => some ((n : Int), rest)
    else none

mutual

/-- Decode one JSON value. -/
def parseJ : Nat → List Char → Option (J × List Char)
  | 0, _ => none
  | _ + 1, [] => none
  | f + 1, c :: r =>
    if c = 'n' then
      match r with
      | 'u' :: 'l' :: 'l' :: r1 => some (.null, r1)
      | _ => none
    else if c = 't' then
      match r with
      | 'r' :: 'u' :: 'e' :: r1 => some (.bool true, r1)
      | _ => none
    else if c = 'f' then
      match r with
      | 'a' :: 'l' :: 's' :: 'e' :: r1 => some (.bool false, r1)
      | _ => none
    else if c = '"' then
      (parseStrChars (r.length + 1) r).map fun p => (.str (String.mk p.1), p.2)
    else if c = '[' then
      (parseElems f r).map fun p => (.arr p.1, p.2)
    else if c = '\x7b' then
      (parseMembers f r).map fun p => (.obj p.1, p.2)
    else
      (parseNum (c :: r)).map fun p => (.num p.1, p.2)

/-- Decode the elements of an array after the opening bracket. -/
def parseElems : Nat → List Char → Option (List J × List Char)
  | 0, _ => none
  | _ + 1, [] => none
  | f + 1, c :: r =>
    if c = ']' then some ([], r)
    else
      match parseJ f (c :: r) with
      | some (x, r1) =>
        match parseMoreElems f r1 with
        | some (xs, r2) => some (x :: xs, r2)
        | none => none
      | none => none

/-- Decode `", "`-separated further elements up to the closing bracket. -/
def parseMoreElems : Nat → List Char → Option (List J × List Char)
  | 0, _ => none
  | _ + 1, [] => none
  | f + 1, c :: r =>
    if c = ']' then some ([], r)
    else if c = ',' then
      match r with
      | ' ' :: r1 =>
        match parseJ f r1 with
        | some (x, r2) =>
          match parseMoreElems f r2 with
          | some (xs, r3) => some (x :: xs, r3)
          | none => none
        | none => none
      | _ => none
    else none

/-- Decode one `"key": value` member. -/
def parseOneMember : Nat → List Char → Option ((String × J) × List Char)
  | 0, _ => none
  | _ + 1, [] => none
  | f + 1, c :: r =>
    if c = '"' then
      match parseStrChars (r.length + 1) r with
      | some (k, r1) =>
        match r1 with
        | c1 :: c2 :: r2 =>
          if c1 = ':' ∧ c2 = ' ' then
            match parseJ f r2 with
            | some (v, r3) => some ((String.mk k, v), r3)
            | none => none
          else none
        | _ => none
      | none => none
    else none

/-- Decode the members of an object after the opening brace. -/
def parseMembers : Nat → List Char → Option (List (String × J) × List Char)
  | 0, _ => none
  | _ + 1, [] => none
  | f + 1, c :: r =>
    if c = '\x7d' then some ([], r)
    else
      match parseOneMember f (c :: r) with
      | some (m, r1) =>
        match parseMoreMembers f r1 with
        | some (ms, r2) => some (m :: ms, r2)
        | none => none
      | none => none

/-- Decode `", "`-separated further members up to the closing brace. -/
def parseMoreMembers : Nat → List Char → Option (List (String × J) × List Char)
  | 0, _ => none
  | _ + 1, [] => none
  | f + 1, c :: r =>
    if c = '\x7d' then some ([], r)
    else if c = ',' then
      match r with
      | ' ' :: r1 =>
        match parseOneMember f r1 with
        | some (m, r2) =>
          match parseMoreMembers f r2 with
          | some (ms, r3) => some (m :: ms, r3)
          | none => none
        | none => none
      | _ => none
    else none

end

/-- Decode a whole string as one JSON value (no trailing input). -/
def parseJson (s : String) : Option J :=
  match parseJ (s.length + 1) s.data with
  | some (j, []) => some j
  | _ => none

/-- Composite values: the sequences and nested documents the serializer
JSON-encodes. -/
def Value.isComposite : Value → Bool
  | .list _ => true
  | .dict _ => true
  | _ => false

/-- The head of the input, if any, is not a decimal digit (the context in
which a rendered numeral is never extended by the decoder). -/
def noDigitHead : List Char → Prop
  | [] => True
  | c :: _ => isDigitCh c = false

instance : DecidablePred noDigitHead := fun l => by
  cases l with
  | nil => exact inferInstanceAs (Decidable True)
  | cons c _ => exact inferInstanceAs (Decidable (isDigitCh c = false))

/-- The element characters of a rendered array, between its brackets. -/
def elemsChars : List J → List Char
  | [] => []
  | x :: xs => dumpJ x ++ dumpMoreElems xs

/-- The member characters of a rendered object, between its braces. -/
def membersChars : List (String × J) → List Char
  | [] => []
  | m :: ms => dumpMember m ++ dumpMoreMembers ms

mutual

/-- Fuel sufficient for `parseJ` to decode a rendered value. -/
def fuelJ : J → Nat
  | .null => 1
  | .bool _ => 1
  | .num _ => 1
  | .str _ => 1
  | .arr l => 1 + fuelElems l
  | .obj l => 1 + fuelMembers l

/-- Fuel sufficient for `parseElems` / `parseMoreElems`. -/
def fuelElems : List J → Nat
  | [] => 1
  | x :: xs => 1 + max (fuelJ x) (fuelElems xs)

/-- Fuel sufficient for `parseMembers` / `parseMoreMembers`. -/
def fuelMembers : List (String × J) → Nat
  | [] => 1
  | (_, v) :: ms => 1 + max (1 + fuelJ v) (fuelMembers ms)

end


/-! ## Correctness of the JSON decoder on encoder output -/

theorem natChars_head_digit (n : Nat) :
    ∃ c cs, natChars n = c :: cs ∧ isDigitCh c = true := by
  induction n using Nat.strong_induction_on with
  | _ n ih =>
    unfold natChars
    split
    · next h =>
      refine ⟨Nat.digitChar n, [], rfl, ?_⟩
      have hall : ∀ d, d < 10 → isDigitCh (Nat.digitChar d) = true := by decide
      exact hall n h
    · next h =>
      obtain ⟨c, cs, hc, hd⟩ := ih (n / 10) (Nat.div_lt_self (by omega) (by omega))
      exact ⟨c, cs ++ [Nat.digitChar (n % 10)], by rw [hc]; rfl, hd⟩

theorem readDigits_noDigit (acc : Nat) (rest : List Char) (h : noDigitHead rest) :
    readDigits acc rest = (acc, rest) := by
  cases rest with
  | nil => rfl
  | cons c cs =>
    simp only [noDigitHead] at h
    simp [readDigits, h]

theorem readDigits_natChars (n : Nat) :
    ∀ (acc : Nat) (rest : List Char),
    readDigits acc (natChars n ++ rest) =
      readDigits (acc * 10 ^ (natChars n).length + n) rest := by
  induction n using Nat.strong_induction_on with
  | _ n ih =>
    intro acc rest
    by_cases h : n < 10
    · have hn : natChars n = [Nat.digitChar n] := by
        conv_lhs => rw [natChars]
        rw [dif_pos h]
      have hdig : isDigitCh (Nat.digitChar n) = true := by
        have hall : ∀ d, d < 10 → isDigitCh (Nat.digitChar d) = true := by decide
        exact hall n h
      have hval : (Nat.digitChar n).toNat - 48 = n := by
        have hall : ∀ d, d < 10 → (Nat.digitChar d).toNat - 48 = d := by decide
        exact hall n h
      rw [hn]
      simp [readDigits, hdig, hval]
    · have hn : natChars n = natChars (n / 10) ++ [Nat.digitChar (n % 10)] := by
        conv_lhs => rw [natChars]
        rw [dif_neg h]
      have hdig : isDigitCh (Nat.digitChar (n % 10)) = true := by
        have hall : ∀ d, d < 10 → isDigitCh (Nat.digitChar d) = true := by decide
        exact hall _ (Nat.mod_lt n (by omega))
      have hval : (Nat.digitChar (n % 10)).toNat - 48 = n % 10 := by
        have hall : ∀ d, d < 10 → (Nat.digitChar d).toNat - 48 = d := by decide
        exact hall _ (Nat.mod_lt n (by omega))
      rw [hn, List.append_assoc, ih (n / 10) (Nat.div_lt_self (by omega) (by omega))]
      simp only [List.cons_append, List.nil_append, readDigits, hdig, if_true, hval]
      have harith :
          (acc * 10 ^ (natChars (n / 10)).length + n / 10) * 10 + n % 10 =
          acc * 10 ^ (natChars (n / 10) ++ [Nat.digitChar (n % 10)]).length + n := by
        rw [List.length_append, List.length_singleton, pow_succ]
        have := Nat.div_add_mod n 10
        ring_nf
        omega
      rw [harith]
      simp

theorem parseNum_intChars (n : Int) (rest : List Char) (h : noDigitHead rest) :
    parseNum (intChars n ++ rest) = some (n, rest) := by
  unfold intChars
  split
  · next hneg =>
    obtain ⟨c, cs, hc, hd⟩ := natChars_head_digit n.natAbs
    have hread := readDigits_natChars n.natAbs 0 rest
    rw [readDigits_noDigit _ rest h] at hread
    rw [hc] at hread ⊢
    have hcd : ¬ c = '-' := by
      intro hcd
      rw [hcd] at hd
      exact absurd hd (by decide)
    simp only [List.cons_append, parseNum, if_pos rfl, hd, if_true]
    rw [show (c :: cs) ++ rest = (c :: cs) ++ rest from rfl] at hread
    simp only [List.cons_append] at hread
    rw [hread]
    simp only [Option.some.injEq, Prod.mk.injEq, and_true]
    omega
  · next hpos =>
    obtain ⟨c, cs, hc, hd⟩ := natChars_head_digit n.toNat
    have hread := readDigits_natChars n.toNat 0 rest
    rw [readDigits_noDigit _ rest h] at hread
    rw [hc] at hread ⊢
    have hcd : ¬ c = '-' := by
      intro hcd
      rw [hcd] at hd
      exact absurd hd (by decide)
    simp only [List.cons_append, parseNum, hcd, if_false, hd, if_true]
    simp only [List.cons_append] at hread
    rw [hread]
    simp only [Option.some.injEq, Prod.mk.injEq, and_true]
    omega

theorem hexVal_digitChar (d : Nat) (h : d < 16) :
    hexVal (Nat.digitChar d) = some d := by
  have hall : ∀ e, e < 16 → hexVal (Nat.digitChar e) = some e := by decide
  exact hall d h

theorem parseHex4_hex4 (n : Nat) (h : n < 65536) (rest : List Char) :
    parseHex4 (hex4 n ++ rest) = some (n, rest) := by
  unfold hex4 parseHex4
  simp only [List.cons_append, List.nil_append]
  rw [hexVal_digitChar _ (by omega), hexVal_digitChar _ (by omega),
    hexVal_digitChar _ (by omega), hexVal_digitChar _ (by omega)]
  simp only [Option.some.injEq, Prod.mk.injEq, and_true]
  omega

/-- The code point of a character is never in the surrogate range. -/
theorem char_not_surrogate (c : Char) : c.toNat < 55296 ∨ 57344 ≤ c.toNat := by
  have ht : c.toNat = c.val.toNat := rfl
  rw [ht]
  rcases c.valid with h | ⟨h1, _⟩
  · exact Or.inl h
  · exact Or.inr (by omega)

/-- The code point of a character is below 0x110000. -/
theorem char_toNat_lt (c : Char) : c.toNat < 1114112 := by
  have ht : c.toNat = c.val.toNat := rfl
  rw [ht]
  rcases c.valid with h | ⟨_, h2⟩
  · exact Nat.lt_trans h (by omega)
  · exact h2

/-- Unfolding `parseStrChars` at a backslash. -/
theorem parseStrChars_backslash (f : Nat) (cs : List Char) :
    parseStrChars (f + 1) ('\\' :: cs) =
      match unescapeSeq cs with
      | some (d, cs1) => (parseStrChars f cs1).map fun p => (d :: p.1, p.2)
      | none => none := rfl

/-- Unfolding `unescapeSeq` at a `u`. -/
theorem unescapeSeq_u (r : List Char) :
    unescapeSeq ('u' :: r) = unescapeU r := rfl

/-- Applying `unescapeU` to four rendered hex digits hands their value on. -/
theorem unescapeU_hex (n : Nat) (h : n < 65536) (rest : List Char) :
    unescapeU (hex4 n ++ rest) = unescapeU2 n rest := by
  unfold unescapeU
  rw [parseHex4_hex4 _ h rest]

/-- A non-surrogate `\u` value decodes to its code point. -/
theorem unescapeU2_nonsur (n : Nat) (rest : List Char)
    (h1 : ¬ (55296 ≤ n ∧ n < 56320)) (h2 : ¬ (56320 ≤ n ∧ n < 57344)) :
    unescapeU2 n rest = some (Char.ofNat n, rest) := by
  unfold unescapeU2
  rw [if_neg h1, if_neg h2]

/-- A high surrogate followed by an encoded low surrogate decodes to the
combined code point. -/
theorem unescapeU2_sur (n m : Nat) (rest : List Char)
    (h1 : 55296 ≤ n ∧ n < 56320) (hm : m < 65536) (h2 : 56320 ≤ m ∧ m < 57344) :
    unescapeU2 n ('\\' :: 'u' :: (hex4 m ++ rest)) =
      some (Char.ofNat (65536 + (n - 55296) * 1024 + (m - 56320)), rest) := by
  unfold unescapeU2
  rw [if_pos h1]
  simp only []
  simp only [and_self, if_true]
  rw [parseHex4_hex4 _ hm rest]
  simp only []
  rw [if_pos h2]

/-- One encoded character is decoded back, whatever follows it. -/
theorem parseStrChars_escChar (c : Char) (tail : List Char) (f : Nat) :
    parseStrChars (f + 1) (escChar c ++ tail) =
      (parseStrChars f tail).map fun p => (c :: p.1, p.2) := by
  by_cases h1 : c = '"'
  · subst h1
    rfl
  by_cases h2 : c = '\\'
  · subst h2
    rfl
  by_cases h3 : c = '\n'
  · subst h3
    rfl
  by_cases h4 : c = '\t'
  · subst h4
    rfl
  by_cases h5 : c = '\r'
  · subst h5
    rfl
  by_cases h6 : c.toNat = 8
  · have hc : c = Char.ofNat 8 := by rw [← Char.ofNat_toNat c, h6]
    subst hc
    rfl
  by_cases h7 : c.toNat = 12
  · have hc : c = Char.ofNat 12 := by rw [← Char.ofNat_toNat c, h7]
    subst hc
    rfl
  have hesc : escChar c =
      if c.toNat < 32 ∨ c.toNat ≥ 127 then
        if c.toNat < 65536 then '\\' :: 'u' :: hex4 c.toNat
        else
          ('\\' :: 'u' :: hex4 (55296 + (c.toNat - 65536) / 1024)) ++
          ('\\' :: 'u' :: hex4 (56320 + (c.toNat - 65536) % 1024))
      else [c] := by
    unfold escChar
    rw [if_neg h1, if_neg h2, if_neg h3, if_neg h4, if_neg h5, if_neg h6, if_neg h7]
  by_cases h8 : c.toNat < 32 ∨ c.toNat ≥ 127
  · by_cases h9 : c.toNat < 65536
    · rcases char_not_surrogate c with hsur | hsur
      · rw [hesc, if_pos h8, if_pos h9]
        simp only [List.cons_append]
        rw [parseStrChars_backslash, unescapeSeq_u, unescapeU_hex _ h9 tail,
          unescapeU2_nonsur _ _ (by omega) (by omega), Char.ofNat_toNat]
      · rw [hesc, if_pos h8, if_pos h9]
        simp only [List.cons_append]
        rw [parseStrChars_backslash, unescapeSeq_u, unescapeU_hex _ h9 tail,
          unescapeU2_nonsur _ _ (by omega) (by omega), Char.ofNat_toNat]
    · have hlt := char_toNat_lt c
      rw [hesc, if_pos h8, if_neg h9]
      simp only [List.cons_append, List.append_assoc, List.nil_append]
      rw [parseStrChars_backslash, unescapeSeq_u,
        unescapeU_hex (55296 + (c.toNat - 65536) / 1024) (by omega),
        unescapeU2_sur _ _ tail (by omega) (by omega) (by omega)]
      have hval : 65536 + (55296 + (c.toNat - 65536) / 1024 - 55296) * 1024 +
          (56320 + (c.toNat - 65536) % 1024 - 56320) = c.toNat := by omega
      rw [hval, Char.ofNat_toNat]
  · rw [hesc, if_neg h8]
    have hlt32 : ¬ c.toNat < 32 := by omega
    show parseStrChars (f + 1) (c :: tail) = _
    conv_lhs => rw [parseStrChars]
    rw [if_neg h1, if_neg h2, if_neg hlt32]

/-- Each character contributes at least one encoded character. -/
theorem escChars_length (l : List Char) : l.length ≤ (escChars l).length := by
  induction l with
  | nil => simp [escChars]
  | cons c cs ih =>
    have hone : 1 ≤ (escChar c).length := by
      unfold escChar
      repeat' split
      all_goals simp
    simp only [escChars, List.length_cons, List.length_append]
    omega

/-- A whole encoded string body is decoded back up to its closing quote. -/
theorem parseStrChars_escChars (l : List Char) (rest : List Char) :
    ∀ f, l.length < f → parseStrChars f (escChars l ++ '"' :: rest) = some (l, rest) := by
  induction l with
  | nil =>
    intro f hf
    match f, hf with
    | f1 + 1, _ => rfl
  | cons c cs ih =>
    intro f hf
    match f, hf with
    | f1 + 1, hf =>
      show parseStrChars (f1 + 1) ((escChar c ++ escChars cs) ++ '"' :: rest) = _
      rw [List.append_assoc, parseStrChars_escChar c _ f1,
        ih f1 (by simpa using Nat.lt_of_succ_lt_succ hf)]
      rfl

theorem dumpJ_arr (l : List J) : dumpJ (.arr l) = '[' :: (elemsChars l ++ [']']) := by
  cases l <;> rfl

theorem dumpJ_obj (l : List (String × J)) :
    dumpJ (.obj l) = '\x7b' :: (membersChars l ++ ['\x7d']) := by
  cases l <;> rfl

theorem fuelJ_pos (j : J) : 1 ≤ fuelJ j := by
  cases j <;> simp [fuelJ]

/-- Step lemmas for the decoder at each concrete leading character. -/
theorem parseJ_null (f : Nat) (r : List Char) :
    parseJ (f + 1) ('n' :: 'u' :: 'l' :: 'l' :: r) = some (.null, r) := rfl

theorem parseJ_true (f : Nat) (r : List Char) :
    parseJ (f + 1) ('t' :: 'r' :: 'u' :: 'e' :: r) = some (.bool true, r) := rfl

theorem parseJ_false (f : Nat) (r : List Char) :
    parseJ (f + 1) ('f' :: 'a' :: 'l' :: 's' :: 'e' :: r) = some (.bool false, r) := rfl

theorem parseJ_quote (f : Nat) (r : List Char) :
    parseJ (f + 1) ('"' :: r) =
      (parseStrChars (r.length + 1) r).map fun p => (J.str (String.mk p.1), p.2) := rfl

theorem parseJ_lbracket (f : Nat) (r : List Char) :
    parseJ (f + 1) ('[' :: r) = (parseElems f r).map fun p => (J.arr p.1, p.2) := rfl

theorem parseJ_lbrace (f : Nat) (r : List Char) :
    parseJ (f + 1) ('\x7b' :: r) = (parseMembers f r).map fun p => (J.obj p.1, p.2) := rfl

theorem parseJ_cons (f : Nat) (c : Char) (r : List Char) :
    parseJ (f + 1) (c :: r) =
      (if c = 'n' then
        match r with
        | 'u' :: 'l' :: 'l' :: r1 => some (.null, r1)
        | _ => none
      else if c = 't' then
        match r with
        | 'r' :: 'u' :: 'e' :: r1 => some (.bool true, r1)
        | _ => none
      else if c = 'f' then
        match r with
        | 'a' :: 'l' :: 's' :: 'e' :: r1 => some (.bool false, r1)
        | _ => none
      else if c = '"' then
        (parseStrChars (r.length + 1) r).map fun p => (J.str (String.mk p.1), p.2)
      else if c = '[' then
        (parseElems f r).map fun p => (J.arr p.1, p.2)
      else if c = '\x7b' then
        (parseMembers f r).map fun p => (J.obj p.1, p.2)
      else
        (parseNum (c :: r)).map fun p => (J.num p.1, p.2)) := rfl

theorem parseJ_other (f : Nat) (c : Char) (r : List Char)
    (h : isDigitCh c = true ∨ c = '-') :
    parseJ (f + 1) (c :: r) = (parseNum (c :: r)).map fun p => (J.num p.1, p.2) := by
  have hn : ¬ c = 'n' := by
    intro he
    rw [he] at h
    rcases h with h | h <;> exact absurd h (by decide)
  have ht : ¬ c = 't' := by
    intro he
    rw [he] at h
    rcases h with h | h <;> exact absurd h (by decide)
  have hf : ¬ c = 'f' := by
    intro he
    rw [he] at h
    rcases h with h | h <;> exact absurd h (by decide)
  have hq : ¬ c = '"' := by
    intro he
    rw [he] at h
    rcases h with h | h <;> exact absurd h (by decide)
  have hlb : ¬ c = '[' := by
    intro he
    rw [he] at h
    rcases h with h | h <;> exact absurd h (by decide)
  have hbr : ¬ c = '\x7b' := by
    intro he
    rw [he] at h
    rcases h with h | h <;> exact absurd h (by decide)
  rw [parseJ_cons]
  rw [if_neg hn, if_neg ht, if_neg hf, if_neg hq, if_neg hlb, if_neg hbr]

theorem parseElems_close (f : Nat) (r : List Char) :
    parseElems (f + 1) (']' :: r) = some ([], r) := rfl

theorem parseElems_open (f : Nat) (c : Char) (r : List Char) (h : ¬ c = ']') :
    parseElems (f + 1) (c :: r) =
      match parseJ f (c :: r) with
      | some (x, r1) =>
        match parseMoreElems f r1 with
        | some (xs, r2) => some (x :: xs, r2)
        | none => none
      | none => none := by
  have hstep : parseElems (f + 1) (c :: r) =
      (if c = ']' then some ([], r)
       else
        match parseJ f (c :: r) with
        | some (x, r1) =>
          match parseMoreElems f r1 with
          | some (xs, r2) => some (x :: xs, r2)
          | none => none
        | none => none) := rfl
  rw [hstep, if_neg h]

theorem parseMoreElems_close (f : Nat) (r : List Char) :
    parseMoreElems (f + 1) (']' :: r) = some ([], r) := rfl

theorem parseMoreElems_comma (f : Nat) (r : List Char) :
    parseMoreElems (f + 1) (',' :: ' ' :: r) =
      match parseJ f r with
      | some (x, r2) =>
        match parseMoreElems f r2 with
        | some (xs, r3) => some (x :: xs, r3)
        | none => none
      | none => none := rfl

theorem parseOneMember_quote (f : Nat) (r : List Char) :
    parseOneMember (f + 1) ('"' :: r) =
      match parseStrChars (r.length + 1) r with
      | some (k, r1) =>
        match r1 with
        | c1 :: c2 :: r2 =>
          if c1 = ':' ∧ c2 = ' ' then
            match parseJ f r2 with
            | some (v, r3) => some ((String.mk k, v), r3)
            | none => none
          else none
        | _ => none
      | none => none := rfl

theorem parseMembers_close (f : Nat) (r : List Char) :
    parseMembers (f + 1) ('\x7d' :: r) = some ([], r) := rfl

theorem parseMembers_open (f : Nat) (c : Char) (r : List Char) (h : ¬ c = '\x7d') :
    parseMembers (f + 1) (c :: r) =
      match parseOneMember f (c :: r) with
      | some (m, r1) =>
        match parseMoreMembers f r1 with
        | some (ms, r2) => some (m :: ms, r2)
        | none => none
      | none => none := by
  have hstep : parseMembers (f + 1) (c :: r) =
      (if c = '\x7d' then some ([], r)
       else
        match parseOneMember f (c :: r) with
        | some (m, r1) =>
          match parseMoreMembers f r1 with
          | some (ms, r2) => some (m :: ms, r2)
          | none => none
        | none => none) := rfl
  rw [hstep, if_neg h]

theorem parseMoreMembers_close (f : Nat) (r : List Char) :
    parseMoreMembers (f + 1) ('\x7d' :: r) = some ([], r) := rfl

theorem parseMoreMembers_comma (f : Nat) (r : List Char) :
    parseMoreMembers (f + 1) (',' :: ' ' :: r) =
      match parseOneMember f r with
      | some (m, r2) =>
        match parseMoreMembers f r2 with
        | some (ms, r3) => some (m :: ms, r3)
        | none => none
      | none => none := rfl

/-- Every rendered value starts with a character that closes nothing. -/
theorem dumpJ_head (j : J) :
    ∃ c cs, dumpJ j = c :: cs ∧ ¬ c = ']' ∧ ¬ c = '\x7d' ∧ ¬ c = ',' := by
  cases j with
  | null => exact ⟨'n', _, rfl, by decide, by decide, by decide⟩
  | bool b =>
    cases b with
    | false => exact ⟨'f', _, rfl, by decide, by decide, by decide⟩
    | true => exact ⟨'t', _, rfl, by decide, by decide, by decide⟩
  | num n =>
    unfold dumpJ intChars
    split
    · exact ⟨'-', _, rfl, by decide, by decide, by decide⟩
    · obtain ⟨c, cs, hc, hd⟩ := natChars_head_digit n.toNat
      refine ⟨c, cs, hc, ?_, ?_, ?_⟩ <;>
        (intro he; rw [he] at hd; exact absurd hd (by decide))
  | str s => exact ⟨'"', _, rfl, by decide, by decide, by decide⟩
  | arr l =>
    rw [dumpJ_arr]
    exact ⟨'[', _, rfl, by decide, by decide, by decide⟩
  | obj l =>
    rw [dumpJ_obj]
    exact ⟨'\x7b', _, rfl, by decide, by decide, by decide⟩

theorem fuelElems_pos (l : List J) : 1 ≤ fuelElems l := by
  cases l <;> simp [fuelElems]

theorem fuelMembers_pos (l : List (String × J)) : 1 ≤ fuelMembers l := by
  cases l with
  | nil => simp [fuelMembers]
  | cons m ms =>
    obtain ⟨k, v⟩ := m
    simp [fuelMembers]

theorem noDigitHead_moreElems (xs : List J) (rest : List Char) :
    noDigitHead (dumpMoreElems xs ++ ']' :: rest) := by
  cases xs with
  | nil =>
    show noDigitHead (']' :: rest)
    show isDigitCh ']' = false
    decide
  | cons x xs =>
    show noDigitHead (',' :: ' ' :: (dumpJ x ++ dumpMoreElems xs) ++ ']' :: rest)
    show isDigitCh ',' = false
    decide

theorem noDigitHead_moreMembers (ms : List (String × J)) (rest : List Char) :
    noDigitHead (dumpMoreMembers ms ++ '\x7d' :: rest) := by
  cases ms with
  | nil =>
    show noDigitHead ('\x7d' :: rest)
    show isDigitCh '\x7d' = false
    decide
  | cons m ms =>
    show noDigitHead (',' :: ' ' :: (dumpMember m ++ dumpMoreMembers ms) ++ '\x7d' :: rest)
    show isDigitCh ',' = false
    decide

/-- The decoder inverts the renderer, given enough fuel — simultaneously
for values, array elements, and object members. -/
theorem parse_round_trip (f : Nat) :
    (∀ j rest, fuelJ j ≤ f → noDigitHead rest →
      parseJ f (dumpJ j ++ rest) = some (j, rest)) ∧
    (∀ l rest, fuelElems l ≤ f →
      parseElems f (elemsChars l ++ ']' :: rest) = some (l, rest)) ∧
    (∀ l rest, fuelElems l ≤ f →
      parseMoreElems f (dumpMoreElems l ++ ']' :: rest) = some (l, rest)) ∧
    (∀ k v rest, 1 + fuelJ v ≤ f → noDigitHead rest →
      parseOneMember f (dumpMember (k, v) ++ rest) = some ((k, v), rest)) ∧
    (∀ l rest, fuelMembers l ≤ f →
      parseMembers f (membersChars l ++ '\x7d' :: rest) = some (l, rest)) ∧
    (∀ l rest, fuelMembers l ≤ f →
      parseMoreMembers f (dumpMoreMembers l ++ '\x7d' :: rest) = some (l, rest)) := by
  induction f using Nat.strong_induction_on with
  | _ f ih =>
    cases f with
    | zero =>
      refine ⟨?_, ?_, ?_, ?_, ?_, ?_⟩
      · intro j _ hfuel _
        exact absurd hfuel (by have := fuelJ_pos j; omega)
      · intro l _ hfuel
        exact absurd hfuel (by have := fuelElems_pos l; omega)
      · intro l _ hfuel
        exact absurd hfuel (by have := fuelElems_pos l; omega)
      · intro _ _ _ hfuel _
        exact absurd hfuel (by omega)
      · intro l _ hfuel
        exact absurd hfuel (by have := fuelMembers_pos l; omega)
      · intro l _ hfuel
        exact absurd hfuel (by have := fuelMembers_pos l; omega)
    | succ f =>
      obtain ⟨ihJ, ihE, ihME, ihM1, ihMs, ihMM⟩ := ih f (Nat.lt_succ_self f)
      refine ⟨?_, ?_, ?_, ?_, ?_, ?_⟩
      · -- values
        intro j rest hfuel hnd
        cases j with
        | null => exact parseJ_null f rest
        | bool b =>
          cases b with
          | true => exact parseJ_true f rest
          | false => exact parseJ_false f rest
        | num n =>
          have hd := parseNum_intChars n rest hnd
          by_cases hneg : n < 0
          · have hshape : intChars n = '-' :: natChars n.natAbs := by
              unfold intChars
              rw [if_pos hneg]
            rw [show dumpJ (.num n) = intChars n from rfl, hshape, List.cons_append,
              parseJ_other f '-' _ (Or.inr rfl), ← List.cons_append, ← hshape, hd]
            rfl
          · have hshape : intChars n = natChars n.toNat := by
              unfold intChars
              rw [if_neg hneg]
            obtain ⟨c, cs, hc, hdig⟩ := natChars_head_digit n.toNat
            rw [show dumpJ (.num n) = intChars n from rfl, hshape, hc, List.cons_append,
              parseJ_other f c _ (Or.inl hdig), ← List.cons_append, ← hc, ← hshape, hd]
            rfl
        | str s =>
          have hle : s.data.length < (escChars s.data ++ '"' :: rest).length + 1 := by
            have := escChars_length s.data
            simp only [List.length_append, List.length_cons]
            omega
          rw [show dumpJ (.str s) ++ rest = '"' :: (escChars s.data ++ '"' :: rest) from by
            show ('"' :: escChars s.data ++ ['"']) ++ rest = _
            simp]
          rw [parseJ_quote, parseStrChars_escChars s.data rest _ hle]
          rfl
        | arr l =>
          rw [show dumpJ (.arr l) ++ rest = '[' :: (elemsChars l ++ ']' :: rest) from by
            rw [dumpJ_arr]
            simp]
          rw [parseJ_lbracket, ihE l rest (by simp only [fuelJ] at hfuel; omega)]
          rfl
        | obj l =>
          rw [show dumpJ (.obj l) ++ rest = '\x7b' :: (membersChars l ++ '\x7d' :: rest) from by
            rw [dumpJ_obj]
            simp]
          rw [parseJ_lbrace, ihMs l rest (by simp only [fuelJ] at hfuel; omega)]
          rfl
      · -- elements of an array, right after the bracket
        intro l rest hfuel
        cases l with
        | nil => exact parseElems_close f rest
        | cons x xs =>
          obtain ⟨c, cs, hc, hne, _, _⟩ := dumpJ_head x
          have hsplit : elemsChars (x :: xs) ++ ']' :: rest =
              c :: (cs ++ (dumpMoreElems xs ++ ']' :: rest)) := by
            show (dumpJ x ++ dumpMoreElems xs) ++ ']' :: rest = _
            rw [hc]
            simp
          rw [hsplit, parseElems_open f c _ hne]
          have hback : c :: (cs ++ (dumpMoreElems xs ++ ']' :: rest)) =
              dumpJ x ++ (dumpMoreElems xs ++ ']' :: rest) := by
            rw [hc]
            simp
          rw [hback, ihJ x _ (by simp only [fuelElems] at hfuel; omega)
            (noDigitHead_moreElems xs rest)]
          dsimp only
          rw [ihME xs rest (by simp only [fuelElems] at hfuel; omega)]
      · -- further elements
        intro l rest hfuel
        cases l with
        | nil => exact parseMoreElems_close f rest
        | cons x xs =>
          rw [show dumpMoreElems (x :: xs) ++ ']' :: rest =
              ',' :: ' ' :: (dumpJ x ++ (dumpMoreElems xs ++ ']' :: rest)) from by
            show (',' :: ' ' :: (dumpJ x ++ dumpMoreElems xs)) ++ ']' :: rest = _
            simp]
          rw [parseMoreElems_comma, ihJ x _ (by simp only [fuelElems] at hfuel; omega)
            (noDigitHead_moreElems xs rest)]
          dsimp only
          rw [ihME xs rest (by simp only [fuelElems] at hfuel; omega)]
      · -- one member
        intro k v rest hfuel hnd
        have hle : k.data.length <
            (escChars k.data ++ '"' :: (':' :: ' ' :: (dumpJ v ++ rest))).length + 1 := by
          have := escChars_length k.data
          simp only [List.length_append, List.length_cons]
          omega
        rw [show dumpMember (k, v) ++ rest =
            '"' :: (escChars k.data ++ '"' :: (':' :: ' ' :: (dumpJ v ++ rest))) from by
          show ('"' :: escChars k.data ++ ['"', ':', ' '] ++ dumpJ v) ++ rest = _
          simp]
        rw [parseOneMember_quote, parseStrChars_escChars k.data _ _ hle]
        dsimp only
        simp only [and_self, if_true]
        rw [ihJ v rest (by omega) hnd]
      · -- members of an object, right after the brace
        intro l rest hfuel
        cases l with
        | nil => exact parseMembers_close f rest
        | cons m ms =>
          obtain ⟨k, v⟩ := m
          rw [show membersChars ((k, v) :: ms) ++ '\x7d' :: rest =
              '"' :: ((escChars k.data ++ ['"', ':', ' '] ++ dumpJ v) ++
                (dumpMoreMembers ms ++ '\x7d' :: rest)) from by
            show (dumpMember (k, v) ++ dumpMoreMembers ms) ++ '\x7d' :: rest = _
            show (('"' :: escChars k.data ++ ['"', ':', ' '] ++ dumpJ v) ++
              dumpMoreMembers ms) ++ '\x7d' :: rest = _
            simp]
          rw [parseMembers_open f '"' _ (by decide)]
          have harg : ('"' : Char) :: ((escChars k.data ++ ['"', ':', ' '] ++ dumpJ v) ++
              (dumpMoreMembers ms ++ '\x7d' :: rest)) =
              dumpMember (k, v) ++ (dumpMoreMembers ms ++ '\x7d' :: rest) := by
            show _ = ('"' :: escChars k.data ++ ['"', ':', ' '] ++ dumpJ v) ++
              (dumpMoreMembers ms ++ '\x7d' :: rest)
            simp
          rw [harg, ihM1 k v _ (by simp only [fuelMembers] at hfuel; omega)
            (noDigitHead_moreMembers ms rest)]
          dsimp only
          rw [ihMM ms rest (by simp only [fuelMembers] at hfuel; omega)]
      · -- further members
        intro l rest hfuel
        cases l with
        | nil => exact parseMoreMembers_close f rest
        | cons m ms =>
          obtain ⟨k, v⟩ := m
          rw [show dumpMoreMembers ((k, v) :: ms) ++ '\x7d' :: rest =
              ',' :: ' ' :: (dumpMember (k, v) ++ (dumpMoreMembers ms ++ '\x7d' :: rest)) from by
            show (',' :: ' ' :: (dumpMember (k, v) ++ dumpMoreMembers ms)) ++ '\x7d' :: rest = _
            simp]
          rw [parseMoreMembers_comma, ihM1 k v _ (by simp only [fuelMembers] at hfuel; omega)
            (noDigitHead_moreMembers ms rest)]
          dsimp only
          rw [ihMM ms rest (by simp only [fuelMembers] at hfuel; omega)]

theorem dumpJ_length_pos (j : J) : 1 ≤ (dumpJ j).length := by
  obtain ⟨c, cs, hc, _⟩ := dumpJ_head j
  rw [hc]
  simp

mutual

theorem fuelJ_le_dump : ∀ (j : J), fuelJ j ≤ (dumpJ j).length
  | .null => by simp [fuelJ, dumpJ]
  | .bool b => by cases b <;> simp [fuelJ, dumpJ]
  | .num n => by
    have h := dumpJ_length_pos (.num n)
    simp only [fuelJ]
    omega
  | .str s => by simp [fuelJ, dumpJ]
  | .arr l => by
    have hb := fuelElems_le_elems l
    rw [dumpJ_arr]
    simp only [fuelJ, List.length_cons, List.length_append, List.length_singleton]
    omega
  | .obj l => by
    have hb := fuelMembers_le_members l
    rw [dumpJ_obj]
    simp only [fuelJ, List.length_cons, List.length_append, List.length_singleton]
    omega

theorem fuelElems_le_elems : ∀ (l : List J), fuelElems l ≤ (elemsChars l).length + 1
  | [] => by simp [fuelElems, elemsChars]
  | x :: xs => by
    have ha := fuelJ_le_dump x
    have hc := fuelElems_le_more xs
    have hp := dumpJ_length_pos x
    simp only [fuelElems, elemsChars, List.length_append]
    omega

theorem fuelElems_le_more : ∀ (l : List J), fuelElems l ≤ (dumpMoreElems l).length + 1
  | [] => by simp [fuelElems, dumpMoreElems]
  | x :: xs => by
    have ha := fuelJ_le_dump x
    have hc := fuelElems_le_more xs
    simp only [fuelElems, dumpMoreElems, List.length_cons, List.length_append]
    omega

theorem fuelMembers_le_members : ∀ (l : List (String × J)),
    fuelMembers l ≤ (membersChars l).length + 1
  | [] => by simp [fuelMembers, membersChars]
  | (k, v) :: ms => by
    have ha := fuelJ_le_dump v
    have hc := fuelMembers_le_more ms
    simp only [fuelMembers, membersChars, dumpMember, List.length_cons,
      List.length_append]
    omega

theorem fuelMembers_le_more : ∀ (l : List (String × J)),
    fuelMembers l ≤ (dumpMoreMembers l).length + 1
  | [] => by simp [fuelMembers, dumpMoreMembers]
  | (k, v) :: ms => by
    have ha := fuelJ_le_dump v
    have hc := fuelMembers_le_more ms
    simp only [fuelMembers, dumpMoreMembers, dumpMember, List.length_cons,
      List.length_append]
    omega

end

/-- The decoder decodes the rendered output back to the rendered tree:
every rendered JSON value is syntactically valid and recovers its
structure. -/
theorem parseJson_dumpJ (j : J) : parseJson (String.mk (dumpJ j)) = some j := by
  have h := (parse_round_trip ((dumpJ j).length + 1)).1 j []
    (by have := fuelJ_le_dump j; omega) trivial
  rw [List.append_nil] at h
  unfold parseJson
  rw [show (String.mk (dumpJ j)).length = (dumpJ j).length from rfl,
    show (String.mk (dumpJ j)).data = dumpJ j from rfl, h]

/-! ## General lemmas about the embedding -/

theorem contains_iff (l : List String) (a : String) : l.contains a = true ↔ a ∈ l :=
  List.elem_iff

theorem applyUi_error (data : Table) (r : Except UiError Table) (h : ∃ e, r = .error e) :
    applyUi data r = data := by
  obtain ⟨e, rfl⟩ := h
  rfl

/-- Cell lookup on a self-indexed row built from the column list itself. -/
theorem cellAt_map_self (cols : List String) (k : String) (f : String → Value) :
    cellAt cols k (cols.map f) = if k ∈ cols then some (f k) else none := by
  induction cols with
  | nil => simp [cellAt]
  | cons c cs ih =>
    by_cases hc : c = k
    · subst hc
      simp [cellAt, List.map_cons]
    · simp [cellAt, List.map_cons, hc, ih, Ne.symm hc]

/-- Dropping columns other than `name` does not change the `name` cell. -/
theorem cellAt_dropAll (cols : List String) (names : List String) (k : String)
    (row : List Value) (hk : k ∉ names) :
    cellAt (cols.filter (fun c => !names.contains c)) k
      (((cols.zip row).filter (fun p => !names.contains p.1)).map Prod.snd) =
    cellAt cols k row := by
  induction cols generalizing row with
  | nil => simp [cellAt]
  | cons c cs ih =>
    cases row with
    | nil =>
      have hnone : ∀ l : List String, cellAt l k [] = none := by
        intro l
        cases l <;> rfl
      simp [List.zip_nil_right, hnone]
    | cons v vs =>
      by_cases hc : c ∈ names
      · have hck : ¬ c = k := fun hck => hk (hck ▸ hc)
        simpa [List.filter_cons, hc, hck, cellAt] using ih vs
      · by_cases hck : c = k
        · subst hck
          simp [List.filter_cons, hc, hk, cellAt]
        · simpa [List.filter_cons, hc, hck, cellAt] using ih vs

/-- Counting under the relabelling `rename_column` applies to the schema. -/
theorem count_map_rename (l : List String) (a b : String) (hne : a ≠ b) :
    (l.map fun c => if c = a then b else c).count b = l.count a + l.count b := by
  induction l with
  | nil => simp
  | cons c cs ih =>
    by_cases hc : c = a
    · simp [hc, List.count_cons, ih, hne, Ne.symm hne]
      omega
    · by_cases hc2 : c = b <;>
        simp [hc, hc2, List.count_cons, ih, hne, Ne.symm hne] <;>
        omega

/-! ## Claim C9: rename round-trip -/

/-- C9: for every table in which `new` does not collide with another
existing column, `RenameColumn(old, new)` followed by
`RenameColumn(new, old)` restores the original table (schema and values). -/
theorem c9_rename_round_trip (t : Table) (old new : String)
    (h : new = old ∨ new ∉ t.cols) :
    rename_column (rename_column t old new) new old = t := by
  obtain ⟨cols, rows⟩ := t
  simp only [rename_column, List.map_map]
  congr 1
  have hid : ∀ c ∈ cols, ((fun c => if c = new then old else c) ∘
      fun c => if c = old then new else c) c = id c := by
    intro c hc
    rcases h with h | h
    · by_cases hco : c = old <;> simp [hco, h]
    · by_cases hco : c = old
      · simp [hco]
      · have hcn : ¬ c = new := fun hcn => h (hcn ▸ hc)
        simp [hco, hcn]
  rw [List.map_congr_left hid, List.map_id]

/-- C9 witness at a concrete table. -/
theorem c9_rename_round_trip_witness :
    rename_column (rename_column ⟨["a", "b"], [[Value.int 1, Value.int 2]]⟩ "a" "c")
      "c" "a" = ⟨["a", "b"], [[Value.int 1, Value.int 2]]⟩ :=
  c9_rename_round_trip ⟨["a", "b"], [[Value.int 1, Value.int 2]]⟩ "a" "c"
    (Or.inr (by decide))

/-! ## Claim C2: rename on collision duplicates instead of overwriting -/

/-- C2 counterexample: on the table with columns `a`, `b`,
`RenameColumn("a", "b")` yields the schema `["b", "b"]` — the prior `b`
column is not overwritten, and `b` occurs twice, not exactly once. -/
theorem c2_rename_collision_counterexample :
    (rename_column ⟨["a", "b"], [[Value.int 1, Value.int 2]]⟩ "a" "b").cols = ["b", "b"] ∧
    (rename_column ⟨["a", "b"], [[Value.int 1, Value.int 2]]⟩ "a" "b").cols.count "b" ≠ 1 := by
  constructor
  · rfl
  · decide

/-- C2 amended: `rename_column` merely relabels `old` to `new`; when a
distinct column named `new` already exists it is kept, so `new` then occurs
twice, `old` vanishes, and the no-duplicate-names invariant is violated
rather than maintained. -/
theorem c2_rename_collision_duplicates (t : Table) (old new : String)
    (hN : t.cols.Nodup) (hold : old ∈ t.cols) (hnew : new ∈ t.cols) (hne : old ≠ new) :
    (rename_column t old new).cols.count new = 2 ∧
    (rename_column t old new).cols.count old = 0 ∧
    ¬ (rename_column t old new).cols.Nodup := by
  have hcount : (rename_column t old new).cols.count new = 2 := by
    simp only [rename_column]
    rw [count_map_rename t.cols old new hne]
    rw [List.count_eq_one_of_mem hN hold, List.count_eq_one_of_mem hN hnew]
  refine ⟨hcount, ?_, ?_⟩
  · rw [List.count_eq_zero]
    intro hmem
    simp only [rename_column, List.mem_map] at hmem
    obtain ⟨c, _, hc⟩ := hmem
    by_cases hco : c = old
    · rw [if_pos hco] at hc
      exact hne hc.symm
    · rw [if_neg hco] at hc
      exact hco hc
  · intro hnd
    have := (List.nodup_iff_count_le_one.mp hnd) new
    omega

/-- C2 amended witness at a concrete table. -/
theorem c2_rename_collision_duplicates_witness :
    (rename_column ⟨["a", "b", "c"], [[Value.int 1, Value.int 2, Value.int 3]]⟩
        "a" "b").cols.count "b" = 2 :=
  (c2_rename_collision_duplicates ⟨["a", "b", "c"], [[Value.int 1, Value.int 2, Value.int 3]]⟩
    "a" "b" (by decide) (by decide) (by decide) (by decide)).1

/-! ## Claim C4: removing a missing column raises, it is not ignored -/

/-- C4 counterexample: removing the absent column `b` does not succeed as
a no-op — `DataFrame.drop` raises a `KeyError` naming it. -/
theorem c4_remove_missing_counterexample :
    remove_columns ⟨["a"], [[Value.int 1]]⟩ ["b"] = .error (.keyError ["b"]) := by
  rfl

/-- When every listed name is a column, `remove_columns` succeeds with
the dropped table. -/
theorem remove_columns_ok (t : Table) (names : List String)
    (hall : ∀ n ∈ names, n ∈ t.cols) :
    remove_columns t names = .ok (dropAll t names) := by
  have hfil : names.filter (fun n => !t.cols.contains n) = [] := by
    rw [List.filter_eq_nil_iff]
    intro n hn
    simp [contains_iff, hall n hn]
  show dropColumns t names = .ok (dropAll t names)
  unfold dropColumns
  rw [hfil]

/-- When some listed name is not a column, `remove_columns` raises a
`KeyError` naming the missing columns. -/
theorem remove_columns_missing (t : Table) (names : List String)
    (h : ∃ n ∈ names, n ∉ t.cols) :
    ∃ missing, missing ≠ [] ∧ remove_columns t names = .error (.keyError missing) := by
  obtain ⟨n, hn, hnc⟩ := h
  cases hfil : names.filter (fun n => !t.cols.contains n) with
  | nil =>
    rw [List.filter_eq_nil_iff] at hfil
    exact absurd (by simpa [contains_iff] using hfil n hn) (by simpa using hnc)
  | cons m ms =>
    refine ⟨m :: ms, by simp, ?_⟩
    show dropColumns t names = _
    unfold dropColumns
    rw [hfil]

/-- C4 amended: `remove_columns` drops the named columns from the schema
and every row when all names are present; when any listed name is not a
column the whole operation fails with a `KeyError` listing the missing
names (nothing is removed), rather than silently ignoring them. -/
theorem c4_remove_columns_amended (t : Table) (names : List String) :
    ((∀ n ∈ names, n ∈ t.cols) →
      remove_columns t names = .ok (dropAll t names) ∧
      ∀ c, c ∈ (dropAll t names).cols ↔ (c ∈ t.cols ∧ c ∉ names)) ∧
    ((∃ n ∈ names, n ∉ t.cols) →
      ∃ missing, missing ≠ [] ∧ remove_columns t names = .error (.keyError missing)) := by
  constructor
  · intro hall
    refine ⟨remove_columns_ok t names hall, ?_⟩
    intro c
    simp [dropAll, List.mem_filter, contains_iff]
  · exact remove_columns_missing t names

/-- C4 amended witness at concrete tables (a successful drop and a failing
one). -/
theorem c4_remove_columns_amended_witness :
    remove_columns ⟨["a", "b"], [[Value.int 1, Value.int 2]]⟩ ["b"] =
      .ok (dropAll ⟨["a", "b"], [[Value.int 1, Value.int 2]]⟩ ["b"]) ∧
    ∃ missing, missing ≠ [] ∧
      remove_columns ⟨["a"], [[Value.int 1]]⟩ ["c"] = .error (.keyError missing) := by
  constructor
  · exact ((c4_remove_columns_amended ⟨["a", "b"], [[Value.int 1, Value.int 2]]⟩ ["b"]).1
      (by decide)).1
  · exact (c4_remove_columns_amended ⟨["a"], [[Value.int 1]]⟩ ["c"]).2
      ⟨"c", by decide, by decide⟩

/-! ## Claim C5: a failing query is reported and leaves the table alone -/

/-- C5: when the engine rejects the query over the (serialized) current table,
the Execute-SQL handler reports the diagnostic message of the engine and
the current session table is exactly what it was before the call. -/
theorem c5_query_error_leaves_table (sqldf : Table → String → Except String Table)
    (data : Table) (query : String) (e : String)
    (hq : query ≠ "") (he : sqldf (serialize_dataframe data) query = .error e) :
    executeSqlUi sqldf data query = (data, some ("Error executing SQL query: " ++ e)) := by
  simp [executeSqlUi, execute_sql_query, hq, he]

/-- C5 witness with a concrete always-failing engine. -/
theorem c5_query_error_leaves_table_witness :
    executeSqlUi (fun _ _ => .error "near SELEC: syntax error")
      ⟨["a"], [[Value.int 1]]⟩ "SELEC * FROM data" =
      (⟨["a"], [[Value.int 1]]⟩, some ("Error executing SQL query: " ++
        "near SELEC: syntax error")) :=
  c5_query_error_leaves_table (fun _ _ => .error "near SELEC: syntax error")
    ⟨["a"], [[Value.int 1]]⟩ "SELEC * FROM data" "near SELEC: syntax error"
    (by decide) rfl

/-- Looking up the assigned column of a row whose matching cells were
overwritten with `wv` yields `wv`. -/
theorem cellAt_assign (cols : List String) (row : List Value) (nn : String) (wv : Value)
    (h : nn ∈ cols) (hl : cols.length ≤ row.length) :
    cellAt cols nn ((cols.zip row).map fun p => if p.1 = nn then wv else p.2) = some wv := by
  induction cols generalizing row with
  | nil => cases h
  | cons c cs ih =>
    cases row with
    | nil => simp at hl
    | cons v vs =>
      by_cases hc : c = nn
      · simp [cellAt, hc]
      · have hmem : nn ∈ cs := by
          rcases List.mem_cons.mp h with h1 | h1
          · exact absurd h1.symm hc
          · exact h1
        have hrec := ih vs hmem (by simpa using hl)
        simpa [cellAt, hc, List.zip] using hrec

/-- Looking up a freshly appended column yields the appended cell. -/
theorem cellAt_append_new (cols : List String) (row : List Value) (nn : String) (wv : Value)
    (h : nn ∉ cols) (hl : row.length = cols.length) :
    cellAt (cols ++ [nn]) nn (row ++ [wv]) = some wv := by
  induction cols generalizing row with
  | nil =>
    cases row with
    | nil => simp [cellAt]
    | cons _ _ => simp at hl
  | cons c cs ih =>
    cases row with
    | nil => simp at hl
    | cons v vs =>
      have hc : ¬ c = nn := fun hc => h (by simp [hc])
      have hcs : nn ∉ cs := fun hm => h (List.mem_cons_of_mem c hm)
      simpa [cellAt, hc] using ih vs hcs (by simpa using hl)

/-- Turning a pointwise `Forall₂` fact into a `map` equation. -/
theorem map_eq_of_forall₂ {α β γ : Type} (g : β → γ) (h : α → γ)
    (l1 : List α) (l2 : List β)
    (H : List.Forall₂ (fun a b => g b = h a) l1 l2) : l2.map g = l1.map h := by
  induction H with
  | nil => rfl
  | cons hab _ ih => simp [ih, hab]

/-- The assigned name is a column of the result of `setColumnWith`, and all
previous columns survive. -/
theorem setColumnWith_cols (t : Table) (nn : String) (f : List Value → Value) :
    nn ∈ (setColumnWith t nn f).cols ∧
    ∀ c, c ∈ t.cols → c ∈ (setColumnWith t nn f).cols := by
  unfold setColumnWith
  by_cases hmem : t.cols.contains nn = true
  · simp only [hmem, if_true]
    exact ⟨(contains_iff _ _).mp hmem, fun c hc => hc⟩
  · simp only [hmem, if_false, Bool.false_eq_true]
    constructor
    · simp
    · intro c hc
      simp [hc]

/-- Each result row of `setColumnWith` carries `f row` under the assigned
column, where `row` is the corresponding input row. -/
theorem setColumnWith_cells (t : Table) (nn : String) (f : List Value → Value)
    (hwf : t.WF) :
    List.Forall₂ (fun row row2 => cellAt (setColumnWith t nn f).cols nn row2 = some (f row))
      t.rows (setColumnWith t nn f).rows := by
  unfold setColumnWith
  by_cases hmem : t.cols.contains nn = true
  · simp only [hmem, if_true]
    rw [List.forall₂_map_right_iff, List.forall₂_same]
    intro row hrow
    exact cellAt_assign t.cols row nn (f row) ((contains_iff _ _).mp hmem)
      (le_of_eq (hwf row hrow).symm)
  · simp only [hmem, if_false, Bool.false_eq_true]
    rw [List.forall₂_map_right_iff, List.forall₂_same]
    intro row hrow
    exact cellAt_append_new t.cols row nn (f row)
      (fun hm => hmem ((contains_iff _ _).mpr hm)) (hwf row hrow)

/-! ## Claim C3: merge columns -/

/-- C3 counterexample: merging `a` and `b` into `a` with
`dropOriginals=true` drops the merged column as well — the result has no
columns at all, `a` is not retained as the merged column. -/
theorem c3_merge_retention_counterexample :
    merge_columns ⟨["a", "b"], [[Value.str "x", Value.str "y"]]⟩ "a" "b" "a" true =
      .ok ⟨[], [[]]⟩ ∧
    "a" ∉ (Table.mk [] [[]]).cols :=
  ⟨rfl, by decide⟩

/-- C3 amended: when `colA` and `colB` are columns, `merge_columns`
succeeds; the `newName` column holds the per-row concatenation of the
stringified `colA` and `colB` cells whenever `newName` survives (always
when `dropOriginals` is false, and when it names neither original);
with `dropOriginals` both `colA` and `colB` are removed unconditionally —
in particular when `newName` equals one of them the merged column itself
is dropped, not retained. -/
theorem c3_merge_columns_amended (t : Table) (colA colB nn : String) (dropOrig : Bool)
    (hA : colA ∈ t.cols) (hB : colB ∈ t.cols) (hwf : t.WF) :
    ∃ t2, merge_columns t colA colB nn dropOrig = .ok t2 ∧
      ((dropOrig = false ∨ (nn ≠ colA ∧ nn ≠ colB)) →
        nn ∈ t2.cols ∧ t2.column nn = t.rows.map (mergedCell t colA colB)) ∧
      (dropOrig = true → colA ∉ t2.cols ∧ colB ∉ t2.cols) := by
  have hcA : t.cols.contains colA = true := (contains_iff _ _).mpr hA
  have hcB : t.cols.contains colB = true := (contains_iff _ _).mpr hB
  have hcells := setColumnWith_cells t nn (mergedCell t colA colB) hwf
  have hcols := setColumnWith_cols t nn (mergedCell t colA colB)
  cases dropOrig with
  | false =>
    refine ⟨setColumnWith t nn (mergedCell t colA colB), ?_, ?_, ?_⟩
    · simp [merge_columns, hA, hB]
    · intro _
      refine ⟨hcols.1, ?_⟩
      show (setColumnWith t nn (mergedCell t colA colB)).rows.map _ = _
      exact map_eq_of_forall₂ _ _ _ _
        (hcells.imp fun a b hab => by rw [hab]; rfl)
    · intro hfalse
      cases hfalse
  | true =>
    have hall : ∀ n ∈ [colA, colB],
        n ∈ (setColumnWith t nn (mergedCell t colA colB)).cols := by
      intro n hn
      rcases List.mem_cons.mp hn with h1 | h1
      · exact hcols.2 n (h1 ▸ hA)
      · rcases List.mem_cons.mp h1 with h2 | h2
        · exact hcols.2 n (h2 ▸ hB)
        · cases h2
    refine ⟨dropAll (setColumnWith t nn (mergedCell t colA colB)) [colA, colB], ?_, ?_, ?_⟩
    · have hok := remove_columns_ok (setColumnWith t nn (mergedCell t colA colB))
        [colA, colB] hall
      unfold remove_columns at hok
      simpa [merge_columns, hA, hB] using hok
    · rintro (h | ⟨hna, hnb⟩)
      · cases h
      · have hknotin : nn ∉ [colA, colB] := by simp [hna, hnb]
        refine ⟨?_, ?_⟩
        · simp only [dropAll, List.mem_filter]
          exact ⟨hcols.1, by simp [hna, hnb]⟩
        · show (dropAll (setColumnWith t nn (mergedCell t colA colB)) [colA, colB]).rows.map _ = _
          refine map_eq_of_forall₂ _ _ _ _ ?_
          simp only [dropAll]
          rw [List.forall₂_map_right_iff]
          refine hcells.imp fun a b hab => ?_
          rw [cellAt_dropAll _ [colA, colB] nn b hknotin, hab]
          rfl
    · intro _
      constructor
      · simp [dropAll, List.mem_filter]
      · simp [dropAll, List.mem_filter]

/-- C3 witness: a concrete merge into a fresh name with
`dropOriginals=true` — the originals vanish and the merged column holds
the concatenated strings. -/
theorem c3_merge_columns_amended_witness :
    ∃ t2, merge_columns ⟨["a", "b"], [[Value.str "x", Value.str "y"]]⟩ "a" "b" "m" true =
        .ok t2 ∧
      "m" ∈ t2.cols ∧ t2.column "m" = [Value.str "xy"] ∧
      "a" ∉ t2.cols ∧ "b" ∉ t2.cols := by
  obtain ⟨t2, hok, hval, hdrop⟩ := c3_merge_columns_amended
    ⟨["a", "b"], [[Value.str "x", Value.str "y"]]⟩ "a" "b" "m" true
    (by decide) (by decide) (by decide)
  obtain ⟨hm, hcolv⟩ := hval (Or.inr ⟨by decide, by decide⟩)
  obtain ⟨ha, hb⟩ := hdrop rfl
  exact ⟨t2, hok, hm, hcolv.trans (by rfl), ha, hb⟩

/-- Re-zipping the columns against a snd-transformed row pairs each entry
with its transformed cell. -/
theorem zip_map_snd (cs : List String) (r : List Value) (f2 : String × Value → Value) :
    cs.zip ((cs.zip r).map f2) = (cs.zip r).map fun p => (p.1, f2 p) := by
  induction cs generalizing r with
  | nil => simp
  | cons c cs ih =>
    cases r with
    | nil => simp
    | cons v vs => simp [ih]

/-- C7: on a table containing the column, `conditional_update` succeeds,
keeps the schema, rewrites exactly the cells of that column whose value
equals the match value (literal equality), leaves every other cell
unchanged, and returns a table equal to the input when no cell matches. -/
theorem c7_conditional_update (t : Table) (column : String) (condition new_value : Value)
    (hcol : column ∈ t.cols) (hwf : t.WF) :
    ∃ t2, conditional_update t column condition new_value = .ok t2 ∧
      t2.cols = t.cols ∧
      List.Forall₂ (fun row row2 =>
        List.Forall₂ (fun (p q : String × Value) =>
          q.1 = p.1 ∧
          (p.1 = column → p.2 = condition → q.2 = new_value) ∧
          (¬ (p.1 = column ∧ p.2 = condition) → q.2 = p.2))
          (t.cols.zip row) (t2.cols.zip row2)) t.rows t2.rows ∧
      ((∀ row ∈ t.rows, ∀ p ∈ t.cols.zip row, ¬ (p.1 = column ∧ p.2 = condition)) →
        t2 = t) := by
  obtain ⟨cols, rows⟩ := t
  simp only [Table.WF] at hwf
  refine ⟨⟨cols, rows.map fun row => (cols.zip row).map fun p =>
      if p.1 = column ∧ p.2 = condition then new_value else p.2⟩, ?_, rfl, ?_, ?_⟩
  · simp [conditional_update, hcol]
  · rw [List.forall₂_map_right_iff, List.forall₂_same]
    intro row _
    rw [zip_map_snd, List.forall₂_map_right_iff, List.forall₂_same]
    intro p _
    refine ⟨rfl, ?_, ?_⟩
    · intro h1 h2
      simp [h1, h2]
    · intro h
      simp [h]
  · intro hnone
    simp only [Table.mk.injEq, true_and]
    refine (List.map_congr_left ?_).trans (List.map_id rows)
    intro row hrow
    have : ((cols.zip row).map fun p =>
        if p.1 = column ∧ p.2 = condition then new_value else p.2) =
        (cols.zip row).map Prod.snd := by
      refine List.map_congr_left ?_
      intro p hp
      simp [hnone row hrow p hp]
    rw [this, List.map_snd_zip cols row (le_of_eq (hwf row hrow))]
    rfl

/-- C7 witness: a concrete update whose match value occurs in no row
returns the input table. -/
theorem c7_conditional_update_witness :
    ∃ t2, conditional_update ⟨["a", "b"], [[Value.str "x", Value.int 1],
        [Value.str "y", Value.int 2]]⟩ "a" (Value.str "zz") (Value.str "w") = .ok t2 ∧
      t2 = ⟨["a", "b"], [[Value.str "x", Value.int 1], [Value.str "y", Value.int 2]]⟩ := by
  obtain ⟨t2, hok, _, _, hid⟩ := c7_conditional_update
    ⟨["a", "b"], [[Value.str "x", Value.int 1], [Value.str "y", Value.int 2]]⟩
    "a" (Value.str "zz") (Value.str "w") (by decide) (by decide)
  exact ⟨t2, hok, hid (by decide)⟩

/-! ## Claim C1: precondition violations are reported and leave the
current table untouched -/

/-- C1: every sidebar transform handler, invoked with parameters that
violate its preconditions (empty text inputs, or a named column that is
not in the table for merge / remove / conditional update), produces an
error instead of a table, and the current session table after the
handler is exactly the table before it — no partial mutation is committed. -/
theorem c1_invalid_operations_leave_table_unchanged (data : Table) :
    (∀ v, (∃ e, addColumnUi data "" v = .error e) ∧
      applyUi data (addColumnUi data "" v) = data) ∧
    (∀ c1 c2 nn dr, (c1 = "" ∨ c2 = "" ∨ nn = "" ∨ c1 ∉ data.cols ∨ c2 ∉ data.cols) →
      (∃ e, mergeColumnsUi data c1 c2 nn dr = .error e) ∧
      applyUi data (mergeColumnsUi data c1 c2 nn dr) = data) ∧
    (∀ names, (names = [] ∨ ∃ n ∈ names, n ∉ data.cols) →
      (∃ e, removeColumnsUi data names = .error e) ∧
      applyUi data (removeColumnsUi data names) = data) ∧
    (∀ oldc newc, (oldc = "" ∨ newc = "") →
      (∃ e, renameColumnUi data oldc newc = .error e) ∧
      applyUi data (renameColumnUi data oldc newc) = data) ∧
    (∀ col mv nv, (col = "" ∨ mv = "" ∨ nv = "" ∨ col ∉ data.cols) →
      (∃ e, conditionalUpdateUi data col mv nv = .error e) ∧
      applyUi data (conditionalUpdateUi data col mv nv) = data) := by
  refine ⟨?_, ?_, ?_, ?_, ?_⟩
  · intro v
    have h : ∃ e, addColumnUi data "" v = .error e :=
      ⟨.emptyInput "Column name cannot be empty", by simp [addColumnUi]⟩
    exact ⟨h, applyUi_error _ _ h⟩
  · intro c1 c2 nn dr hbad
    have h : ∃ e, mergeColumnsUi data c1 c2 nn dr = .error e := by
      by_cases hempty : c1 = "" ∨ c2 = "" ∨ nn = ""
      · exact ⟨.emptyInput "Please provide all details for merging columns",
          by simp [mergeColumnsUi, hempty]⟩
      · by_cases h1 : c1 ∈ data.cols
        · have h2 : c2 ∉ data.cols := by tauto
          exact ⟨.invalidOperation (.keyError [c2]),
            by simp [mergeColumnsUi, hempty, merge_columns, contains_iff, h1, h2, Except.mapError]⟩
        · exact ⟨.invalidOperation (.keyError [c1]),
            by simp [mergeColumnsUi, hempty, merge_columns, contains_iff, h1, Except.mapError]⟩
    exact ⟨h, applyUi_error _ _ h⟩
  · intro names hbad
    have h : ∃ e, removeColumnsUi data names = .error e := by
      rcases hbad with h | h
      · exact ⟨.emptyInput "Please select columns to remove",
          by simp [removeColumnsUi, h]⟩
      · have hne : ¬ names.isEmpty = true := by
          obtain ⟨n, hn, _⟩ := h
          cases names with
          | nil => cases hn
          | cons _ _ => simp
        obtain ⟨missing, _, hmiss⟩ := remove_columns_missing data names h
        exact ⟨.invalidOperation (.keyError missing),
          by simp [removeColumnsUi, hne, hmiss, Except.mapError]⟩
    exact ⟨h, applyUi_error _ _ h⟩
  · intro oldc newc hbad
    have h : ∃ e, renameColumnUi data oldc newc = .error e :=
      ⟨.emptyInput "Please provide both the old and new column names",
        by simp [renameColumnUi, hbad]⟩
    exact ⟨h, applyUi_error _ _ h⟩
  · intro col mv nv hbad
    have h : ∃ e, conditionalUpdateUi data col mv nv = .error e := by
      by_cases hempty : col = "" ∨ mv = "" ∨ nv = ""
      · exact ⟨.emptyInput "Please provide all details for the update",
          by simp [conditionalUpdateUi, hempty]⟩
      · have hc : col ∉ data.cols := by tauto
        exact ⟨.invalidOperation (.keyError [col]),
          by simp [conditionalUpdateUi, hempty, conditional_update, contains_iff, hc, Except.mapError]⟩
    exact ⟨h, applyUi_error _ _ h⟩

/-- C1 witness: each handler, fed a violating input over a concrete
table, errors and leaves the session table equal to that table. -/
theorem c1_invalid_operations_witness :
    ((∃ e, addColumnUi ⟨["a"], [[Value.int 1]]⟩ "" "v" = .error e) ∧
      applyUi ⟨["a"], [[Value.int 1]]⟩ (addColumnUi ⟨["a"], [[Value.int 1]]⟩ "" "v") =
        ⟨["a"], [[Value.int 1]]⟩) ∧
    ((∃ e, mergeColumnsUi ⟨["a"], [[Value.int 1]]⟩ "b" "a" "m" true = .error e) ∧
      applyUi ⟨["a"], [[Value.int 1]]⟩
        (mergeColumnsUi ⟨["a"], [[Value.int 1]]⟩ "b" "a" "m" true) =
        ⟨["a"], [[Value.int 1]]⟩) ∧
    ((∃ e, removeColumnsUi ⟨["a"], [[Value.int 1]]⟩ ["c"] = .error e) ∧
      applyUi ⟨["a"], [[Value.int 1]]⟩
        (removeColumnsUi ⟨["a"], [[Value.int 1]]⟩ ["c"]) = ⟨["a"], [[Value.int 1]]⟩) ∧
    ((∃ e, renameColumnUi ⟨["a"], [[Value.int 1]]⟩ "a" "" = .error e) ∧
      applyUi ⟨["a"], [[Value.int 1]]⟩
        (renameColumnUi ⟨["a"], [[Value.int 1]]⟩ "a" "") = ⟨["a"], [[Value.int 1]]⟩) ∧
    ((∃ e, conditionalUpdateUi ⟨["a"], [[Value.int 1]]⟩ "z" "x" "y" = .error e) ∧
      applyUi ⟨["a"], [[Value.int 1]]⟩
        (conditionalUpdateUi ⟨["a"], [[Value.int 1]]⟩ "z" "x" "y") =
        ⟨["a"], [[Value.int 1]]⟩) := by
  have h := c1_invalid_operations_leave_table_unchanged ⟨["a"], [[Value.int 1]]⟩
  exact ⟨h.1 "v",
    h.2.1 "b" "a" "m" true (by right; right; right; left; decide),
    h.2.2.1 ["c"] (by right; exact ⟨"c", by decide, by decide⟩),
    h.2.2.2.1 "a" "" (by right; rfl),
    h.2.2.2.2 "z" "x" "y" (by right; right; right; decide)⟩

/-! ## Claim C8: projection of documents to the table and back -/

/-- Zipping a list with a mapped copy of itself pairs every element with
its image. -/
theorem zip_self_map {α β : Type} (l : List α) (g : α → β) :
    l.zip (l.map g) = l.map fun a => (a, g a) := by
  induction l with
  | nil => rfl
  | cons a as ih => simp [ih]

/-- Membership in the accumulated first-seen union of field names. -/
theorem mem_unionKeys_aux (docs : List Doc) (acc : List String) (c : String) :
    c ∈ docs.foldl (fun acc d => acc ++ (d.map Prod.fst).filter (fun k => !acc.contains k)) acc ↔
    c ∈ acc ∨ ∃ d ∈ docs, c ∈ d.map Prod.fst := by
  induction docs generalizing acc with
  | nil => simp
  | cons d ds ih =>
    rw [List.foldl_cons, ih]
    simp only [List.mem_append, List.mem_filter, List.mem_cons, contains_iff]
    constructor
    · rintro (((h | ⟨h1, _⟩) | ⟨d1, hd1, hc1⟩))
      · exact Or.inl h
      · exact Or.inr ⟨d, Or.inl rfl, h1⟩
      · exact Or.inr ⟨d1, Or.inr hd1, hc1⟩
    · rintro (h | ⟨d1, (rfl | hd1), hc1⟩)
      · exact Or.inl (Or.inl h)
      · by_cases hacc : c ∈ acc
        · exact Or.inl (Or.inl hacc)
        · exact Or.inl (Or.inr ⟨hc1, by simpa [contains_iff] using hacc⟩)
      · exact Or.inr ⟨d1, hd1, hc1⟩

/-- A name is a projected column iff some document carries it. -/
theorem mem_unionKeys (docs : List Doc) (c : String) :
    c ∈ unionKeys docs ↔ ∃ d ∈ docs, c ∈ d.map Prod.fst := by
  unfold unionKeys
  simpa using mem_unionKeys_aux docs [] c

/-- A name is among the keys of a document iff it is bound to some value. -/
theorem mem_keys_iff (d : Doc) (c : String) :
    c ∈ d.map Prod.fst ↔ ∃ v, (c, v) ∈ d := by
  constructor
  · intro h
    obtain ⟨p, hp, hpc⟩ := List.mem_map.mp h
    exact ⟨p.2, by simpa [← hpc] using hp⟩
  · rintro ⟨v, hv⟩
    exact List.mem_map.mpr ⟨(c, v), hv, rfl⟩

/-- Association lookup on a columns-to-row zip is positional cell lookup. -/
theorem lookup_zip (cols : List String) (row : List Value) (k : String) :
    (cols.zip row).lookup k = cellAt cols k row := by
  induction cols generalizing row with
  | nil => simp [cellAt]
  | cons c cs ih =>
    cases row with
    | nil => simp [cellAt]
    | cons v vs =>
      by_cases hc : c = k
      · simp [List.lookup, cellAt, hc]
      · have hkc : (k == c) = false := beq_eq_false_iff_ne.mpr (Ne.symm hc)
        simp only [List.zip_cons_cons, List.lookup, hkc, cellAt, if_neg hc]
        exact ih vs

/-- On a dict (no duplicate keys), lookup finds any bound pair. -/
theorem lookup_eq_some_of_mem (d : Doc) (k : String) (v : Value)
    (hN : (d.map Prod.fst).Nodup) (h : (k, v) ∈ d) : d.lookup k = some v := by
  induction d with
  | nil => cases h
  | cons p ps ih =>
    obtain ⟨k1, v1⟩ := p
    rw [List.map_cons, List.nodup_cons] at hN
    rcases List.mem_cons.mp h with h1 | h1
    · injection h1 with h1a h1b
      simp [List.lookup, h1a, h1b]
    · have hk1 : ¬ k1 = k := by
        intro he
        have hkmem : k ∈ ps.map Prod.fst := List.mem_map.mpr ⟨(k, v), h1, rfl⟩
        exact hN.1 (he ▸ hkmem)
      have hkk1 : (k == k1) = false := beq_eq_false_iff_ne.mpr (fun he => hk1 he.symm)
      simp only [List.lookup, hkk1]
      exact ih hN.2 h1

/-- C8: the projected columns are exactly the non-`_id` field names
occurring across the documents; `to_records` preserves the document count;
and every non-`_id` field value of every input document is found unchanged
in the corresponding output document. -/
theorem c8_project_round_trip (docs : List Doc)
    (hN : ∀ d ∈ docs, (d.map Prod.fst).Nodup) :
    (∀ c, c ∈ (load_data docs).cols ↔ (c ≠ "_id" ∧ ∃ d ∈ docs, ∃ v, (c, v) ∈ d)) ∧
    (to_records (load_data docs)).length = docs.length ∧
    (∀ p ∈ docs.zip (to_records (load_data docs)),
      ∀ k v, (k, v) ∈ p.1 → k ≠ "_id" → p.2.lookup k = some v) := by
  refine ⟨?_, ?_, ?_⟩
  · intro c
    have hmem := mem_unionKeys docs c
    have hiff : (∃ d ∈ docs, c ∈ d.map Prod.fst) ↔ ∃ d ∈ docs, ∃ v, (c, v) ∈ d := by
      constructor
      · rintro ⟨d, hd, hc⟩
        exact ⟨d, hd, (mem_keys_iff d c).mp hc⟩
      · rintro ⟨d, hd, v, hv⟩
        exact ⟨d, hd, (mem_keys_iff d c).mpr ⟨v, hv⟩⟩
    unfold load_data
    by_cases hid : (dataFrameOfDocs docs).cols.contains "_id" = true
    · simp only [hid, if_true]
      simp only [dropAll, dataFrameOfDocs, List.mem_filter]
      rw [hmem] at *
      constructor
      · rintro ⟨h1, h2⟩
        refine ⟨by simpa using h2, hiff.mp h1⟩
      · rintro ⟨h1, h2⟩
        exact ⟨hiff.mpr h2, by simpa using h1⟩
    · simp only [hid, if_false, Bool.false_eq_true]
      have hnid : "_id" ∉ unionKeys docs := fun hm => hid ((contains_iff _ _).mpr hm)
      show c ∈ unionKeys docs ↔ _
      rw [hmem, hiff]
      constructor
      · intro h
        refine ⟨?_, h⟩
        intro hc
        exact hnid (by rw [← hc, hmem, hiff]; exact h)
      · exact fun h => h.2
  · unfold load_data
    by_cases hid : (dataFrameOfDocs docs).cols.contains "_id" = true
    · simp only [hid, if_true]
      simp [to_records, dropAll, dataFrameOfDocs]
    · simp only [hid, if_false, Bool.false_eq_true]
      simp [to_records, dataFrameOfDocs]
  · intro p hp k v hkv hknid
    have hkmem : k ∈ unionKeys docs := by
      have hd : p.1 ∈ docs := (List.of_mem_zip hp).1
      exact (mem_unionKeys docs k).mpr ⟨p.1, hd, (mem_keys_iff p.1 k).mpr ⟨v, hkv⟩⟩
    unfold load_data at hp
    by_cases hid : (dataFrameOfDocs docs).cols.contains "_id" = true
    · simp only [hid, if_true] at hp
      simp only [dropAll, to_records, dataFrameOfDocs, List.map_map] at hp
      rw [zip_self_map] at hp
      obtain ⟨d, hd, rfl⟩ := List.mem_map.mp hp
      have hlook : d.lookup k = some v :=
        lookup_eq_some_of_mem d k v (hN d hd) hkv
      dsimp only [Function.comp]
      rw [lookup_zip, cellAt_dropAll _ ["_id"] k _ (by simpa using hknid),
        cellAt_map_self, if_pos hkmem, hlook]
      rfl
    · simp only [hid, if_false, Bool.false_eq_true] at hp
      simp only [to_records, dataFrameOfDocs, List.map_map] at hp
      rw [zip_self_map] at hp
      obtain ⟨d, hd, rfl⟩ := List.mem_map.mp hp
      have hlook : d.lookup k = some v :=
        lookup_eq_some_of_mem d k v (hN d hd) hkv
      dsimp only [Function.comp]
      rw [lookup_zip, cellAt_map_self, if_pos hkmem, hlook]
      rfl

/-- C8 witness at a concrete pair of heterogeneous documents, one holding
an `_id`. -/
theorem c8_project_round_trip_witness :
    ("_id" ∉ (load_data [[("_id", Value.str "i1"), ("a", Value.int 1)],
        [("b", Value.str "z")]]).cols) ∧
    (to_records (load_data [[("_id", Value.str "i1"), ("a", Value.int 1)],
        [("b", Value.str "z")]])).length = 2 ∧
    ([("a", Value.int 1), ("b", Value.null)].lookup "a" = some (Value.int 1)) := by
  have h := c8_project_round_trip
    [[("_id", Value.str "i1"), ("a", Value.int 1)], [("b", Value.str "z")]]
    (by decide)
  refine ⟨?_, h.2.1, ?_⟩
  · intro hmem
    exact ((h.1 "_id").mp hmem).1 rfl
  · have hv := h.2.2
      ([("_id", Value.str "i1"), ("a", Value.int 1)],
        [("a", Value.int 1), ("b", Value.null)])
      (by decide) "a" (Value.int 1) (by decide) (by decide)
    exact hv

/-! ## Claim C6: the cell serializer -/

/-- C6: a composite (sequence / nested-document) cell value serializes to
a JSON text that decodes back to the serialized structure (with nested
timestamps stringified first); a timestamp serializes to its ISO-8601
text; every other value passes through unchanged; and `serialize_dataframe`
applies the serializer to every cell independently, preserving the schema. -/
theorem c6_serialize_cells (v : Value) (t : Table) :
    (v.isComposite = true →
      serialize_complex_data v = .str (json_dumps v) ∧
      parseJson (json_dumps v) = some (jsonOfValue v)) ∧
    (∀ dt, v = .timestamp dt → serialize_complex_data v = .str dt.isoformat) ∧
    (v.isComposite = false → (∀ dt, v ≠ .timestamp dt) → serialize_complex_data v = v) ∧
    (serialize_dataframe t).cols = t.cols ∧
    List.Forall₂ (fun r r2 => List.Forall₂ (fun a b => b = serialize_complex_data a) r r2)
      t.rows (serialize_dataframe t).rows := by
  refine ⟨?_, ?_, ?_, rfl, ?_⟩
  · intro hcomp
    cases v with
    | list l => exact ⟨rfl, parseJson_dumpJ (jsonOfValue (.list l))⟩
    | dict f => exact ⟨rfl, parseJson_dumpJ (jsonOfValue (.dict f))⟩
    | null => cases hcomp
    | bool b => cases hcomp
    | int n => cases hcomp
    | str s => cases hcomp
    | timestamp dt => cases hcomp
  · intro dt h
    subst h
    rfl
  · intro hcomp hts
    cases v with
    | null => rfl
    | bool b => rfl
    | int n => rfl
    | str s => rfl
    | timestamp dt => exact absurd rfl (hts dt)
    | list l => cases hcomp
    | dict f => cases hcomp
  · show List.Forall₂ _ t.rows (t.rows.map (List.map serialize_complex_data))
    rw [List.forall₂_map_right_iff, List.forall₂_same]
    intro r _
    rw [List.forall₂_map_right_iff, List.forall₂_same]
    intro a _
    rfl

/-- C6 witness at a concrete nested value, timestamp and scalar. -/
theorem c6_serialize_cells_witness :
    (serialize_complex_data (.list [.int 1, .str "a", .dict [("k", Value.null)]]) =
      .str (json_dumps (.list [.int 1, .str "a", .dict [("k", Value.null)]])) ∧
     parseJson (json_dumps (.list [.int 1, .str "a", .dict [("k", Value.null)]])) =
      some (jsonOfValue (.list [.int 1, .str "a", .dict [("k", Value.null)]]))) ∧
    serialize_complex_data (.timestamp ⟨2021, 1, 2, 3, 4, 5, 0⟩) =
      .str (PyDateTime.isoformat ⟨2021, 1, 2, 3, 4, 5, 0⟩) ∧
    serialize_complex_data (.int 5) = .int 5 ∧
    List.Forall₂ (fun r r2 => List.Forall₂ (fun a b => b = serialize_complex_data a) r r2)
      (Table.mk ["a"] [[Value.int 1, Value.list []]]).rows
      (serialize_dataframe ⟨["a"], [[Value.int 1, Value.list []]]⟩).rows := by
  refine ⟨?_, ?_, ?_, ?_⟩
  · exact (c6_serialize_cells (.list [.int 1, .str "a", .dict [("k", Value.null)]])
      ⟨[], []⟩).1 rfl
  · exact (c6_serialize_cells (.timestamp ⟨2021, 1, 2, 3, 4, 5, 0⟩) ⟨[], []⟩).2.1
      ⟨2021, 1, 2, 3, 4, 5, 0⟩ rfl
  · exact (c6_serialize_cells (.int 5) ⟨[], []⟩).2.2.1 rfl
      (fun dt h => Value.noConfusion h)
  · exact (c6_serialize_cells Value.null
      ⟨["a"], [[Value.int 1, Value.list []]]⟩).2.2.2.2

/-! ## Claim C10: saving an empty table destroys the collection -/

/-- C10: `save_data` first deletes every document unconditionally; with an
empty table the subsequent `insert_many([])` raises pymongo's
`InvalidOperation`, so the collection is left empty and the prior documents
are gone — the failed save does not restore them. -/
theorem c10_empty_save_destroys_collection (coll : List Doc) (data : Table)
    (h : data.rows = []) :
    save_data coll data = ([], some "documents must be a non-empty list") := by
  simp [save_data, delete_many_all, insert_many, to_records, h]

/-- C10 witness: a nonempty collection, saved over with an empty table,
ends up empty with the insert error reported. -/
theorem c10_empty_save_destroys_collection_witness :
    save_data [[("a", Value.int 1)], [("a", Value.int 2)]] ⟨["x"], []⟩ =
      ([], some "documents must be a non-empty list") :=
  c10_empty_save_destroys_collection [[("a", Value.int 1)], [("a", Value.int 2)]]
    ⟨["x"], []⟩ rfl

end MongoGui

